import Mathlib

/-!
Verification of the mailbudget email-import and budget-ledger core.

The definitions below are a shallow embedding of the TypeScript source:
  * the Firestore service (`recalculateCategoryActivity`,
    `recalculateAccountBalance`, `addTransaction`, `updateTransaction`,
    `deleteTransaction`, `moveMoney`) over an explicit per-user database
    value;
  * the sender-domain matcher (`extractEmailDomain`,
    `findAccountByEmailDomain`) including the source's regex semantics;
  * the flag engine (`FLAG_RULES`, `checkTransactionFlags`);
  * the extractor validation step of `parseEmailWithGemini`;
  * the token manager `getGmailAccessToken` of the cloud function;
  * the base64url body decoding `decodeBase64Url`;
  * the per-message processing loop of `syncEmailsHourly`.
JavaScript numbers are modelled as rationals, JavaScript's
string-or-undefined (and string-or-null) values as `Option String`, with
truthiness (`undefined`, `null` and `""` are falsy) made explicit.
Fallible calls (Firestore `updateDoc` on a missing document, a duplicate
insert) are modelled with `Except`.
-/

namespace MailBudget

/-- Transaction status, the closed set of strings the source uses. -/
inductive TStatus where
  | cleared
  | uncleared
  | reconciled
deriving DecidableEq

/-- `Transaction` of src/src/types/index.ts (timestamps omitted: the model
has no clock). `category_id` is `string | null`, `account_id`, `notes` and
`original_email_id` are optional. -/
structure Transaction where
  id : String
  date : String
  payee : String
  amount : ℚ
  category_id : Option String
  original_email_id : Option String := none
  status : TStatus
  account_id : Option String := none
  notes : Option String := none
deriving DecidableEq

/-- `Category` of src/src/types/index.ts. -/
structure Category where
  id : String
  name : String
  group : String
  assigned : ℚ
  activity : ℚ
  available : ℚ
deriving DecidableEq

/-- `Account` of src/src/types/index.ts (`type` renamed `acctType`). -/
structure Account where
  id : String
  name : String
  acctType : String
  cleared_balance : ℚ
  email_domain : Option String := none
deriving DecidableEq

/-- One user's Firestore document collections, as the service reads and
writes them. -/
structure DB where
  transactions : List Transaction
  categories : List Category
  accounts : List Account
deriving DecidableEq

/-- JavaScript truthiness of a `string | null | undefined` value:
`undefined`, `null` and `""` are falsy. -/
def strTruthy : Option String → Bool
  | none => false
  | some s => !(s == "")

/-- Sum of the `amount` fields, the accumulation loop both recalculation
functions run over their query snapshot. -/
def sumAmounts (ts : List Transaction) : ℚ :=
  (ts.map Transaction.amount).sum

/-- The transactions the `where('category_id', '==', categoryId)` query
returns. -/
def categoryTransactions (db : DB) (categoryId : String) : List Transaction :=
  db.transactions.filter fun t => t.category_id == some categoryId

/-- The transactions the `where('account_id', '==', accountId)` query
returns. -/
def accountTransactions (db : DB) (accountId : String) : List Transaction :=
  db.transactions.filter fun t => t.account_id == some accountId

/-- `recalculateCategoryActivity` (src/unnamed/part_004 lines 83-114): sum
the amounts of the category's transactions, then, if the category document
exists, set `activity` to that sum and `available` to the category's
`assigned` minus the sum. A missing category is a silent no-op (the source
guards `updateDoc` behind `!categorySnapshot.empty`). -/
def recalculateCategoryActivity (db : DB) (categoryId : String) : DB :=
  let totalActivity := sumAmounts (categoryTransactions db categoryId)
  match db.categories.find? (fun c => c.id == categoryId) with
  | none => db
  | some category =>
      { db with
        categories := db.categories.map fun c =>
          if c.id == categoryId then
            { c with activity := totalActivity
                     available := category.assigned - totalActivity }
          else c }

/-- `recalculateAccountBalance` (src/unnamed/part_004 lines 121-145): sum
the amounts of the account's transactions of every status and write the sum
to `cleared_balance`. The source calls `updateDoc` unguarded, which throws
when the account document does not exist. -/
def recalculateAccountBalance (db : DB) (accountId : String) : Except String DB :=
  let clearedBalance := sumAmounts (accountTransactions db accountId)
  if (db.accounts.find? (fun a => a.id == accountId)).isSome then
    .ok { db with
          accounts := db.accounts.map fun a =>
            if a.id == accountId then { a with cleared_balance := clearedBalance } else a }
  else
    .error "No document to update"

/-- `Omit<Transaction, 'id'>`, the argument of `addTransaction`. -/
structure NewTransaction where
  date : String
  payee : String
  amount : ℚ
  category_id : Option String
  original_email_id : Option String := none
  status : TStatus
  account_id : Option String := none
  notes : Option String := none
deriving DecidableEq

/-- The document `addDoc` creates from a `NewTransaction` under a fresh id. -/
def NewTransaction.withId (t : NewTransaction) (id : String) : Transaction :=
  { id := id
    date := t.date
    payee := t.payee
    amount := t.amount
    category_id := t.category_id
    original_email_id := t.original_email_id
    status := t.status
    account_id := t.account_id
    notes := t.notes }

/-- The source's repeated `if (x) { await recalculateCategoryActivity(uid, x) }`
with `x : string | null | undefined`. -/
def recalcCategoryIfSet (db : DB) : Option String → DB
  | some c => if c == "" then db else recalculateCategoryActivity db c
  | none => db

/-- The source's repeated `if (x) { await recalculateAccountBalance(uid, x) }`. -/
def recalcAccountIfSet (db : DB) : Option String → Except String DB
  | some a => if a == "" then .ok db else recalculateAccountBalance db a
  | none => .ok db

/-- `addTransaction` (src/unnamed/part_004 lines 151-191): reject a
duplicate `original_email_id` when the field is truthy, append the new
document (`newId` stands for the id `addDoc` generates), then recalculate
the category when `category_id` is truthy and the account when `account_id`
is truthy. -/
def addTransaction (db : DB) (newId : String) (t : NewTransaction) : Except String DB :=
  if strTruthy t.original_email_id &&
      db.transactions.any (fun tx => tx.original_email_id == t.original_email_id) then
    .error "Transaction with this email ID already exists"
  else
    let db1 := { db with transactions := db.transactions ++ [t.withId newId] }
    let db2 := recalcCategoryIfSet db1 t.category_id
    recalcAccountIfSet db2 t.account_id

/-- `Partial<Transaction>`, the argument of `updateTransaction`: an outer
`none` is an absent (`undefined`) field, which `cleanUpdates` strips before
`updateDoc`; for `category_id` the inner `Option` is the `string | null`
value. -/
structure TransactionUpdates where
  date : Option String := none
  payee : Option String := none
  amount : Option ℚ := none
  category_id : Option (Option String) := none
  account_id : Option String := none
  status : Option TStatus := none
  notes : Option String := none
deriving DecidableEq

/-- The effect of `updateDoc(transactionRef, cleanUpdates)` on the stored
document: present fields overwrite, absent fields are kept. -/
def applyTransactionUpdates (t : Transaction) (u : TransactionUpdates) : Transaction :=
  { t with
    date := u.date.getD t.date
    payee := u.payee.getD t.payee
    amount := u.amount.getD t.amount
    category_id := u.category_id.getD t.category_id
    account_id := match u.account_id with | some a => some a | none => t.account_id
    status := u.status.getD t.status
    notes := match u.notes with | some n => some n | none => t.notes }

/-- The category recalculations of `updateTransaction` (source lines
236-243): recalculate the old category whenever it is truthy, then the new
one when `updates.category_id` is truthy and differs from the old. -/
def updateCategoryPhase (db1 : DB) (oldCategoryId : Option String) (u : TransactionUpdates) :
    DB :=
  let db2 := recalcCategoryIfSet db1 oldCategoryId
  match u.category_id with
  | some (some c) =>
      if c == "" || some c == oldCategoryId then db2
      else recalculateCategoryActivity db2 c
  | _ => db2

/-- The old-account recalculation of `updateTransaction` (source lines
246-248): recalculate the old account when it is truthy and the update's
`account_id` or `status` differs from the stored value by JavaScript
strict inequality (an absent field is `undefined`). -/
def updateOldAccountStep (db3 : DB) (oldAccountId : Option String) (oldStatus : TStatus)
    (u : TransactionUpdates) : Except String DB :=
  match oldAccountId with
  | some a =>
      if a == "" then .ok db3
      else if u.account_id != some a || u.status != some oldStatus then
        recalculateAccountBalance db3 a
      else .ok db3
  | none => .ok db3

/-- Both account recalculations of `updateTransaction` (source lines
246-252): the old-account step, then the new account when
`updates.account_id` is truthy and differs from the old. -/
def updateAccountPhase (db3 : DB) (oldAccountId : Option String) (oldStatus : TStatus)
    (u : TransactionUpdates) : Except String DB :=
  match u.account_id with
  | some a' =>
      if a' == "" || some a' == oldAccountId then
        updateOldAccountStep db3 oldAccountId oldStatus u
      else
        match updateOldAccountStep db3 oldAccountId oldStatus u with
        | .error e => .error e
        | .ok db4 => recalculateAccountBalance db4 a'
  | none => updateOldAccountStep db3 oldAccountId oldStatus u

/-- `updateTransaction` (src/unnamed/part_004 lines 196-253): read the old
document (`updateDoc` throws when it is missing), apply the updates, then
run the category phase and the account phase above. -/
def updateTransaction (db : DB) (transactionId : String) (u : TransactionUpdates) :
    Except String DB :=
  match db.transactions.find? (fun t => t.id == transactionId) with
  | none => .error "No document to update"
  | some oldTransaction =>
    let db1 := { db with
                 transactions := db.transactions.map fun t =>
                   if t.id == transactionId then applyTransactionUpdates t u else t }
    let db3 := updateCategoryPhase db1 oldTransaction.category_id u
    updateAccountPhase db3 oldTransaction.account_id oldTransaction.status u

/-- `deleteTransaction` (src/unnamed/part_004 lines 258-294): read the
document's category and account (null when the document is missing), delete
it (`deleteDoc` does not throw on a missing document), then recalculate the
category and the account when truthy. -/
def deleteTransaction (db : DB) (transactionId : String) : Except String DB :=
  let found := db.transactions.find? (fun t => t.id == transactionId)
  let categoryId : Option String := match found with
    | some t => t.category_id
    | none => none
  let accountId : Option String := match found with
    | some t => t.account_id
    | none => none
  let db1 := { db with
               transactions := db.transactions.filter fun t => !(t.id == transactionId) }
  let db2 := recalcCategoryIfSet db1 categoryId
  recalcAccountIfSet db2 accountId

/-- `moveMoney` (src/unnamed/part_004 lines 334-374): read both category
documents from the current state, fail when either is missing, then write
`assigned` and `available` of the source category and afterwards of the
target category, each computed from the values read before either write. -/
def moveMoney (db : DB) (fromCategoryId toCategoryId : String) (amount : ℚ) :
    Except String DB :=
  match db.categories.find? (fun c => c.id == fromCategoryId),
        db.categories.find? (fun c => c.id == toCategoryId) with
  | some fromCategory, some toCategory =>
      let db1 := { db with
                   categories := db.categories.map fun (c : Category) =>
                     if c.id == fromCategoryId then
                       { c with assigned := fromCategory.assigned - amount
                                available := fromCategory.assigned - amount - fromCategory.activity }
                     else c }
      let db2 := { db1 with
                   categories := db1.categories.map fun (c : Category) =>
                     if c.id == toCategoryId then
                       { c with assigned := toCategory.assigned + amount
                                available := toCategory.assigned + amount - toCategory.activity }
                     else c }
      .ok db2
  | _, _ => .error "Category not found"

/-- A character of the regex class `[a-zA-Z0-9.-]` (`Char.isAlpha` and
`Char.isDigit` are the ASCII ranges, as in the regex). -/
def isDomainChar (c : Char) : Bool :=
  c.isAlpha || c.isDigit || c == '.' || c == '-'

/-- Backtracking of the greedy `[a-zA-Z0-9.-]+` against `\.[a-zA-Z]{2,}`
inside the maximal run `T` of domain characters: the argument is the
candidate position of the dot, tried from high to low; at least one domain
character must precede it. On success the capture is everything before the
dot, the dot, and the maximal letter run after it. -/
def domainMatchAux (T : List Char) : ℕ → Option (List Char)
  | 0 => none
  | p + 1 =>
    if T.get? (p + 1) = some '.' then
      let letters := (T.drop (p + 2)).takeWhile Char.isAlpha
      if 2 ≤ letters.length then some (T.take (p + 1) ++ '.' :: letters)
      else domainMatchAux T p
    else domainMatchAux T p

/-- The capture of `([a-zA-Z0-9.-]+\.[a-zA-Z]{2,})` matched at the start of
`l` (the text right after an `@`), or `none` when the group cannot match
there. -/
def domainMatch (l : List Char) : Option (List Char) :=
  let T := l.takeWhile isDomainChar
  domainMatchAux T (T.length - 1)

/-- `String.prototype.match` with `/@([a-zA-Z0-9.-]+\.[a-zA-Z]{2,})/`: the
engine tries every start position from the left; the first `@` whose suffix
matches the group yields the capture. -/
def extractEmailDomainAux : List Char → Option (List Char)
  | [] => none
  | c :: rest =>
    if c == '@' then
      match domainMatch rest with
      | some g => some g
      | none => extractEmailDomainAux rest
    else extractEmailDomainAux rest

/-- `extractEmailDomain` (src/unnamed/part_002 lines 122-126): the regex
capture, lowercased; `""` when the regex does not match. -/
def extractEmailDomain (emailAddress : String) : String :=
  match extractEmailDomainAux emailAddress.toList with
  | some g => String.mk (g.map Char.toLower)
  | none => ""

/-- `findAccountByEmailDomain` (src/unnamed/part_003 lines 17-28): `null`
when no domain was extracted, otherwise the first account whose truthy
`email_domain` equals the domain case-insensitively. -/
def findAccountByEmailDomain (accounts : List Account) (senderEmail : String) :
    Option Account :=
  let domain := extractEmailDomain senderEmail
  if domain == "" then none
  else
    accounts.find? fun account =>
      match account.email_domain with
      | none => false
      | some d => if d == "" then false else d.toLower == domain.toLower

/-- The matching rule as the spec words it: the first account whose
`email_domain` exactly equals (case-insensitively) the extracted domain,
with no wildcard or subdomain matching; an account without a domain never
matches, and an empty extracted domain matches nothing. -/
def specDomainMatches (account : Account) (domain : String) : Bool :=
  domain != "" &&
    match account.email_domain with
    | some d => d != "" && d.toLower == domain.toLower
    | none => false

/-- The fields of an email as the client code consumes them (`from` renamed
`fromAddr`; body parts are optional). -/
structure EmailData where
  fromAddr : String
  subject : String
  htmlContent : Option String := none
  textContent : Option String := none
  messageId : String
deriving DecidableEq

/-- The extractor's self-reported confidence. -/
inductive Confidence where
  | high
  | medium
  | low
deriving DecidableEq

/-- The parsed-transaction fields the flag rules read (`amount` is `none`
for an absent or NaN amount, both falsy in the source). -/
structure FlagInput where
  confidence : Confidence
  category_id : Option String := none
  amount : Option ℚ := none
deriving DecidableEq

/-- A flag as `checkTransactionFlags` creates it (`message` and
`created_at` carry no verified content and are omitted). -/
structure TransactionFlag where
  reason : String
  resolved : Bool
deriving DecidableEq

/-- JavaScript `a || b` on a `string | undefined` and a default. -/
def jsOrElse : Option String → String → String
  | some s, d => if s == "" then d else s
  | none, d => d

/-- Substring test on character lists, `String.prototype.includes`. -/
def containsSubList : List Char → List Char → Bool
  | [], pat => pat.isEmpty
  | c :: t, pat => pat.isPrefixOf (c :: t) || containsSubList t pat

/-- `String.prototype.includes`. -/
def strIncludes (hay pat : String) : Bool :=
  containsSubList hay.toList pat.toList

/-- A rule of `FLAG_RULES`: its id and its `check` predicate. -/
structure FlagRule where
  id : String
  check : EmailData → Option FlagInput → Bool

/-- `FLAG_RULES` (src/src/services/transactionFlags.ts lines 14-59), in
source order. The `unusual_amount` rule first returns `false` whenever
`parsedTransaction?.amount` is falsy (absent, NaN or zero). -/
def FLAG_RULES : List FlagRule :=
  [ { id := "currency_mismatch"
      check := fun email _ =>
        let content := (jsOrElse email.htmlContent (jsOrElse email.textContent "")).toLower
        strIncludes content "please note, the dollar amount reported is in the currency of the account" ||
        strIncludes content "dollar amount reported is in the currency" ||
        strIncludes content "amount reported is in the currency of the account" }
  , { id := "low_confidence"
      check := fun _ parsed =>
        match parsed with
        | some p => p.confidence == Confidence.low
        | none => false }
  , { id := "missing_category"
      check := fun _ parsed =>
        match parsed with
        | some p => !(strTruthy p.category_id)
        | none => true }
  , { id := "unusual_amount"
      check := fun _ parsed =>
        match parsed with
        | none => false
        | some p =>
          match p.amount with
          | none => false
          | some amount =>
            if amount == 0 then false
            else decide (10000 < |amount|) || decide (|amount| < 1 / 100) } ]

/-- `checkTransactionFlags` (src/src/services/transactionFlags.ts lines
64-82): run every rule in order, appending one unresolved flag per firing
rule. -/
def checkTransactionFlags (email : EmailData) (parsed : Option FlagInput) :
    List TransactionFlag :=
  FLAG_RULES.foldl
    (fun flags rule =>
      if rule.check email parsed then flags ++ [{ reason := rule.id, resolved := false }]
      else flags)
    []

/-- The `amount` field of the model's JSON output: a number or a string. -/
inductive AmountJson where
  | num (value : ℚ)
  | str (value : String)
deriving DecidableEq

/-- The JSON object `JSON.parse` yields from the model's text, with each
field possibly missing. -/
structure GeminiOutput where
  date : Option String := none
  payee : Option String := none
  amount : Option AmountJson := none
  notes : Option String := none
  confidence : Option Confidence := none
deriving DecidableEq

/-- The candidate `parseEmailWithGemini` returns on success. `amount` is
`none` when the stored JavaScript number is NaN (a string `parseFloat`
could not parse). -/
structure ParsedCandidate where
  date : String
  payee : String
  amount : Option ℚ
  notes : Option String
  confidence : Option Confidence
deriving DecidableEq

/-- Digit run to a natural number. -/
def digitsVal (ds : List Char) : ℕ :=
  ds.foldl (fun acc c => 10 * acc + (c.toNat - 48)) 0

/-- JavaScript `parseFloat`: skip leading whitespace, an optional sign,
then the longest prefix `digits [. digits]`; NaN (modelled `none`) when no
digit is found. Exponent forms and `Infinity`, which no claim exercises,
are not modelled. -/
def jsParseFloat (s : String) : Option ℚ :=
  let cs := s.toList.dropWhile fun c => c == ' ' || c == '\t' || c == '\n' || c == '\r'
  let signAndRest : ℚ × List Char :=
    match cs with
    | '-' :: t => (-1, t)
    | '+' :: t => (1, t)
    | _ => (1, cs)
  let intDigits := signAndRest.2.takeWhile Char.isDigit
  let afterInt := signAndRest.2.drop intDigits.length
  let fracDigits : List Char :=
    match afterInt with
    | '.' :: t => t.takeWhile Char.isDigit
    | _ => []
  if intDigits.isEmpty && fracDigits.isEmpty then none
  else
    some (signAndRest.1 *
      ((digitsVal intDigits : ℚ) + (digitsVal fracDigits : ℚ) / (10 ^ fracDigits.length)))

/-- The validation block of `parseEmailWithGemini` (src/unnamed/part_002
lines 98-111): return `none` when `date` or `payee` is falsy or `amount`
is `undefined`; coerce a string amount with `parseFloat` (no NaN check
follows); pass a numeric amount through. -/
def validateGeminiResponse (parsed : GeminiOutput) : Option ParsedCandidate :=
  match parsed.date, parsed.payee, parsed.amount with
  | some d, some p, some am =>
    if d == "" || p == "" then none
    else
      some { date := d
             payee := p
             amount := match am with
               | .num q => some q
               | .str s => jsParseFloat s
             notes := parsed.notes
             confidence := parsed.confidence }
  | _, _, _ => none

/-- The `users/{uid}/config/gmail` document (timestamps omitted). -/
structure GmailConfig where
  gmail_refresh_token : Option String := none
  gmail_access_token : Option String := none
  gmail_token_expiry : Option ℤ := none
deriving DecidableEq

deriving instance DecidableEq for Except

/-- What one call of `getGmailAccessToken` did: its outcome, how many
token-refresh requests it issued, and the stored config afterwards. -/
structure TokenResult where
  outcome : Except String String
  refreshCalls : ℕ
  stored : Option GmailConfig
deriving DecidableEq

/-- The refresh branch of `getGmailAccessToken`: one call of
`refreshAccessToken` whose outcome is the `refreshOutcome` argument; on
success the new token and an expiry of `now + 3600 * 1000` (the hardcoded
`expiresIn = 3600`) are persisted. -/
def tokenRefreshResult (c : GmailConfig) (now : ℤ) (refreshOutcome : Except String String) :
    TokenResult :=
  match refreshOutcome with
  | .error e => { outcome := .error e, refreshCalls := 1, stored := some c }
  | .ok newAccessToken =>
      { outcome := .ok newAccessToken
        refreshCalls := 1
        stored := some { c with
                         gmail_access_token := some newAccessToken
                         gmail_token_expiry := some (now + 3600 * 1000) } }

/-- `getGmailAccessToken` (src/functions/src/index.ts lines 93-129): fail
when no config document exists; fail when the refresh token is falsy (this
check precedes the validity check); return the stored access token when it
is truthy and `tokenExpiry > Date.now() + 5 * 60 * 1000` (a falsy stored
expiry counts as 0); otherwise refresh. `now` stands for `Date.now()`. -/
def getGmailAccessToken (config : Option GmailConfig) (now : ℤ)
    (refreshOutcome : Except String String) : TokenResult :=
  match config with
  | none => { outcome := .error "No Gmail tokens found for user", refreshCalls := 0, stored := none }
  | some c =>
    if strTruthy c.gmail_refresh_token = false then
      { outcome := .error "No refresh token found for user", refreshCalls := 0, stored := some c }
    else
      let tokenExpiry : ℤ := c.gmail_token_expiry.getD 0
      match c.gmail_access_token with
      | some accessToken =>
          if accessToken ≠ "" ∧ now + 5 * 60 * 1000 < tokenExpiry then
            { outcome := .ok accessToken, refreshCalls := 0, stored := some c }
          else tokenRefreshResult c now refreshOutcome
      | none => tokenRefreshResult c now refreshOutcome

/-- The value of a base64 alphabet character (`A-Z`, `a-z`, `0-9`, `+`,
`/`), written over `Char.toNat` codes 65-90, 97-122, 48-57, 43, 47. -/
def base64CharVal (c : Char) : Option ℕ :=
  let v := c.toNat
  if 65 ≤ v ∧ v ≤ 90 then some (v - 65)
  else if 97 ≤ v ∧ v ≤ 122 then some (v - 97 + 26)
  else if 48 ≤ v ∧ v ≤ 57 then some (v - 48 + 52)
  else if v = 43 then some 62
  else if v = 47 then some 63
  else none

/-- Bytes of a run of base64 sextets: groups of four sextets yield three
bytes; a trailing group of three yields two, of two yields one, and a
single leftover sextet is invalid. -/
def sextetsToBytes : List ℕ → Option (List ℕ)
  | [] => some []
  | [_] => none
  | [a, b] => some [a * 4 + b / 16]
  | [a, b, c] => some [a * 4 + b / 16, b % 16 * 16 + c / 4]
  | a :: b :: c :: d :: rest =>
      (sextetsToBytes rest).map fun tail =>
        (a * 4 + b / 16) :: (b % 16 * 16 + c / 4) :: (c % 4 * 64 + d) :: tail

/-- Base64 decoding to bytes (`atob` / `Buffer.from(s, 'base64')`):
trailing `=` padding stripped, every other character must be of the
alphabet. -/
def base64DecodeBytes (s : String) : Option (List ℕ) :=
  let cs := s.toList
  let body := cs.takeWhile fun c => c != '='
  if (cs.drop body.length).all (fun c => c == '=') then
    (body.mapM base64CharVal).bind sextetsToBytes
  else none

/-- The source's two `str.replace` calls turning base64url into base64:
every `-` becomes `+` and every `_` becomes a slash. -/
def base64UrlToBase64 (s : String) : String :=
  String.mk (s.toList.map fun c => if c == '-' then '+' else if c == '_' then '/' else c)

/-- Lowercase hex digit, as `Number.prototype.toString(16)` produces
(codes 48-57 and 97-102). -/
def hexDigitChar (n : ℕ) : Char :=
  if n < 10 then Char.ofNat (48 + n) else Char.ofNat (97 + (n - 10))

/-- The byte-to-percent-escape step
`('00' + c.charCodeAt(0).toString(16)).slice(-2)` prefixed by `%`: two
zero-padded lowercase hex digits per byte (`slice(-2)` keeps the low two
digits). -/
def percentEscapeBytes (bytes : List ℕ) : List Char :=
  bytes.flatMap fun b => ['%', hexDigitChar (b / 16 % 16), hexDigitChar (b % 16)]

/-- Value of a hex digit, upper or lower case, as `decodeURIComponent`
reads one. -/
def hexCharVal (c : Char) : Option ℕ :=
  let v := c.toNat
  if 48 ≤ v ∧ v ≤ 57 then some (v - 48)
  else if 97 ≤ v ∧ v ≤ 102 then some (v - 97 + 10)
  else if 65 ≤ v ∧ v ≤ 70 then some (v - 65 + 10)
  else none

/-- The percent-escape reading of `decodeURIComponent` on the all-escape
strings the pipeline produces: each `%hh` contributes one byte. (A literal
character would pass through in the source; `percentEscapeBytes` never
emits one.) -/
def percentUnescape : List Char → Option (List ℕ)
  | [] => some []
  | '%' :: h :: l :: rest => do
      let hi ← hexCharVal h
      let lo ← hexCharVal l
      let tail ← percentUnescape rest
      some ((hi * 16 + lo) :: tail)
  | _ => none

/-- Strict UTF-8 decoding of a byte list, the semantics `decodeURIComponent`
applies to a run of percent-escaped bytes: rejects continuation-byte
violations, overlong forms, surrogates and code points above U+10FFFF. -/
def utf8DecodeAux : List ℕ → Option (List Char)
  | [] => some []
  | b :: rest =>
    if b < 128 then
      (utf8DecodeAux rest).map fun tail => Char.ofNat b :: tail
    else if 194 ≤ b ∧ b ≤ 223 then
      match rest with
      | b2 :: rest2 =>
          if 128 ≤ b2 ∧ b2 ≤ 191 then
            (utf8DecodeAux rest2).map fun tail =>
              Char.ofNat ((b - 192) * 64 + (b2 - 128)) :: tail
          else none
      | [] => none
    else if 224 ≤ b ∧ b ≤ 239 then
      match rest with
      | b2 :: b3 :: rest3 =>
          if (if b = 224 then 160 ≤ b2 ∧ b2 ≤ 191
              else if b = 237 then 128 ≤ b2 ∧ b2 ≤ 159
              else 128 ≤ b2 ∧ b2 ≤ 191) ∧ 128 ≤ b3 ∧ b3 ≤ 191 then
            (utf8DecodeAux rest3).map fun tail =>
              Char.ofNat ((b - 224) * 4096 + (b2 - 128) * 64 + (b3 - 128)) :: tail
          else none
      | _ => none
    else if 240 ≤ b ∧ b ≤ 244 then
      match rest with
      | b2 :: b3 :: b4 :: rest4 =>
          if (if b = 240 then 144 ≤ b2 ∧ b2 ≤ 191
              else if b = 244 then 128 ≤ b2 ∧ b2 ≤ 143
              else 128 ≤ b2 ∧ b2 ≤ 191) ∧ 128 ≤ b3 ∧ b3 ≤ 191 ∧ 128 ≤ b4 ∧ b4 ≤ 191 then
            (utf8DecodeAux rest4).map fun tail =>
              Char.ofNat ((b - 240) * 262144 + (b2 - 128) * 4096 + (b3 - 128) * 64 + (b4 - 128)) :: tail
          else none
      | _ => none
    else none

/-- UTF-8 decoding of bytes to a string; `none` models both a thrown
`URIError` (the pipeline path, caught into `''`) and a failed direct
decode. -/
def utf8DecodeBytes (bytes : List ℕ) : Option String :=
  (utf8DecodeAux bytes).map fun cs => String.mk cs

/-- `decodeURIComponent` on an all-percent-escape string: read the bytes,
then decode them as UTF-8. -/
def decodeURIComponentEscapes (cs : List Char) : Option String :=
  (percentUnescape cs).bind utf8DecodeBytes

/-- `decodeBase64Url` (src/functions/src/index.ts lines 134-148): base64url
to base64, base64-decode to bytes, reinterpret each byte as a percent
escape, then URL-decode. `none` models the catch branch that returns `''`. -/
def decodeBase64Url (s : String) : Option String :=
  (base64DecodeBytes (base64UrlToBase64 s)).bind fun bytes =>
    decodeURIComponentEscapes (percentEscapeBytes bytes)

/-- The reimplementation the spec asks to compare against: decode the
base64 bytes directly as UTF-8 text, with no percent-escape step. -/
def decodeBase64UrlDirect (s : String) : Option String :=
  (base64DecodeBytes (base64UrlToBase64 s)).bind utf8DecodeBytes

/-- The parsed transaction as `syncEmailsHourly` consumes it when creating
a document (a NaN amount is outside this model's scope; no claim
exercises it through the sync loop). -/
structure ParsedEmailTransaction where
  date : String
  payee : String
  amount : ℚ
  notes : Option String := none
  confidence : Confidence := .high
deriving DecidableEq

/-- The per-user state the message loop of `syncEmailsHourly` threads:
the transaction collection, the imported and skipped counters, the ids of
messages marked read, and a counter standing for Firestore's generated
document ids. -/
structure SyncState where
  transactions : List Transaction
  imported : ℕ
  skipped : ℕ
  readIds : List String
  nextId : ℕ
deriving DecidableEq

/-- One iteration of the message loop of `syncEmailsHourly`
(src/functions/src/index.ts lines 433-495): an unmatched sender domain or
a failed parse increments `skipped`; a truthy `messageId` with an existing
transaction of the same `original_email_id` increments `skipped`;
otherwise the transaction is created (`status: 'uncleared'`,
`category_id: null`, notes defaulted) and, when `messageId` is truthy, the
message is marked read afterwards. `parse` stands for
`parseEmailWithGemini`'s outcome on each email. -/
def processEmail (accounts : List Account) (parse : EmailData → Option ParsedEmailTransaction)
    (st : SyncState) (email : EmailData) : SyncState :=
  match findAccountByEmailDomain accounts email.fromAddr with
  | none => { st with skipped := st.skipped + 1 }
  | some account =>
    match parse email with
    | none => { st with skipped := st.skipped + 1 }
    | some parsed =>
      if email.messageId != "" &&
          st.transactions.any (fun tx => tx.original_email_id == some email.messageId) then
        { st with skipped := st.skipped + 1 }
      else
        let newTx : Transaction :=
          { id := "auto" ++ toString st.nextId
            date := parsed.date
            payee := parsed.payee
            amount := parsed.amount
            account_id := some account.id
            status := .uncleared
            category_id := none
            notes := some (jsOrElse parsed.notes ("Auto-imported from " ++ email.fromAddr))
            original_email_id := some email.messageId }
        { st with
          transactions := st.transactions ++ [newTx]
          imported := st.imported + 1
          nextId := st.nextId + 1
          readIds := if email.messageId != "" then st.readIds ++ [email.messageId] else st.readIds }

/-- The message loop over a user's fetched emails. -/
def processEmails (accounts : List Account) (parse : EmailData → Option ParsedEmailTransaction)
    (st : SyncState) (emails : List EmailData) : SyncState :=
  emails.foldl (processEmail accounts parse) st

/-- One user's inputs to a sync run. -/
structure UserSyncInput where
  accounts : List Account
  existing : List Transaction
  emails : List EmailData

/-- One user's run, from that user's own state. -/
def runUserSync (parse : EmailData → Option ParsedEmailTransaction) (u : UserSyncInput) :
    SyncState :=
  processEmails u.accounts parse
    { transactions := u.existing, imported := 0, skipped := 0, readIds := [], nextId := 0 }
    u.emails

/-- The user loop of `syncEmailsHourly`: users are processed independently,
each over its own namespaced state. -/
def runSync (parse : EmailData → Option ParsedEmailTransaction) (users : List UserSyncInput) :
    List SyncState :=
  users.map (runUserSync parse)

/-- The transaction mutations and the envelope transfer the system invokes
on a user's database. -/
inductive Op where
  | add (newId : String) (t : NewTransaction)
  | update (transactionId : String) (u : TransactionUpdates)
  | delete (transactionId : String)
  | move (fromCategoryId toCategoryId : String) (amount : ℚ)

/-- Dispatch an operation. -/
def applyOp (db : DB) : Op → Except String DB
  | .add newId t => addTransaction db newId t
  | .update tid u => updateTransaction db tid u
  | .delete tid => deleteTransaction db tid
  | .move f t m => moveMoney db f t m

/-! ### Concrete fixtures used by the claim theorems -/

/-- A transaction of 10 on account `a1`. -/
def c1Transaction : Transaction :=
  { id := "t1", date := "2024-01-01", payee := "Store", amount := 10,
    category_id := none, status := .uncleared, account_id := some "a1" }

/-- Account `a1` whose balance matches its one transaction. -/
def c1Account : Account :=
  { id := "a1", name := "Checking", acctType := "checking", cleared_balance := 10 }

def c1Db : DB := { transactions := [c1Transaction], categories := [], accounts := [c1Account] }

/-- An edit that changes only the amount while passing the unchanged
account and status, exactly as the edit-transaction form submits it. -/
def c1Updates : TransactionUpdates :=
  { amount := some 20, account_id := some "a1", status := some .uncleared }

def c2Category : Category :=
  { id := "groceries", name := "Groceries", group := "Daily Living",
    assigned := 100, activity := 0, available := 100 }

def c2Db : DB := { transactions := [], categories := [c2Category], accounts := [] }

def c2NewTransaction : NewTransaction :=
  { date := "2024-01-02", payee := "Market", amount := -25,
    category_id := some "groceries", status := .uncleared }

def c3Account : Account :=
  { id := "a1", name := "Chase Checking", acctType := "checking",
    cleared_balance := 0, email_domain := some "chase.com" }

def c3Email : EmailData :=
  { fromAddr := "alerts@chase.com", subject := "Transaction Alert", messageId := "m1" }

def c3Parsed : ParsedEmailTransaction :=
  { date := "2024-01-03", payee := "STARBUCKS", amount := -4567 / 100 }

def c3State : SyncState :=
  { transactions := [], imported := 0, skipped := 0, readIds := [], nextId := 0 }

def c4Config : GmailConfig :=
  { gmail_refresh_token := none, gmail_access_token := some "stored-token",
    gmail_token_expiry := some 600000 }

def c5Email : EmailData :=
  { fromAddr := "alerts@chase.com", subject := "Alert", messageId := "m5" }

def c7Account : Account :=
  { id := "a1", name := "Checking", acctType := "checking",
    cleared_balance := 0, email_domain := some "example.com" }

def c9Account : Account :=
  { id := "a1", name := "Checking", acctType := "checking",
    cleared_balance := 0, email_domain := some "example.com" }

def c9Email : EmailData :=
  { fromAddr := "newsletter@unknown.org", subject := "News", messageId := "m9" }

def c10Category : Category :=
  { id := "g", name := "Groceries", group := "Daily Living",
    assigned := 10, activity := 0, available := 10 }

def c10Db : DB := { transactions := [], categories := [c10Category], accounts := [] }

def c10From : Category :=
  { id := "from", name := "From", group := "G", assigned := 10, activity := 2, available := 8 }

def c10To : Category :=
  { id := "to", name := "To", group := "G", assigned := 5, activity := 1, available := 4 }

def c10Db2 : DB := { transactions := [], categories := [c10From, c10To], accounts := [] }

/-! ### Lemmas about the recalculation primitives -/

/-- Mapping an id-preserving function leaves the projected id list
unchanged. -/
theorem map_proj_of_preserve {α β : Type} (f : α → α) (g : α → β) (l : List α)
    (h : ∀ a, g (f a) = g a) : (l.map f).map g = l.map g := by
  induction l with
  | nil => rfl
  | cons x xs ih => simp [h, ih]

theorem recalcCat_transactions (db : DB) (cid : String) :
    (recalculateCategoryActivity db cid).transactions = db.transactions := by
  unfold recalculateCategoryActivity
  cases db.categories.find? (fun c => c.id == cid) <;> rfl

theorem recalcCat_accounts (db : DB) (cid : String) :
    (recalculateCategoryActivity db cid).accounts = db.accounts := by
  unfold recalculateCategoryActivity
  cases db.categories.find? (fun c => c.id == cid) <;> rfl

theorem recalcCat_catIds (db : DB) (cid : String) :
    (recalculateCategoryActivity db cid).categories.map Category.id =
      db.categories.map Category.id := by
  unfold recalculateCategoryActivity
  cases db.categories.find? (fun c => c.id == cid)
  · rfl
  · refine map_proj_of_preserve _ _ _ fun a => ?_
    by_cases hc : a.id == cid <;> simp [hc]

theorem recalcCat_mem_ne (db : DB) (cid : String) (c : Category)
    (h : c ∈ (recalculateCategoryActivity db cid).categories) (hne : ¬ c.id = cid) :
    c ∈ db.categories := by
  unfold recalculateCategoryActivity at h
  rcases hfind : db.categories.find? (fun c => c.id == cid) with _ | cat <;> rw [hfind] at h
  · exact h
  · obtain ⟨c0, hc0, hc0eq⟩ := List.mem_map.1 h
    by_cases h0 : c0.id == cid
    · have hcid : c0.id = cid := beq_iff_eq.1 h0
      exact absurd (by rw [← hc0eq]; simp [h0, hcid]) hne
    · rw [← hc0eq]
      simpa [h0] using hc0

theorem recalcCat_mem_eq (db : DB) (cid : String) (c : Category)
    (hnodup : (db.categories.map Category.id).Nodup)
    (h : c ∈ (recalculateCategoryActivity db cid).categories) (hid : c.id = cid) :
    c.activity = sumAmounts (categoryTransactions db cid) ∧
      c.available = c.assigned - c.activity := by
  unfold recalculateCategoryActivity at h
  rcases hfind : db.categories.find? (fun c => c.id == cid) with _ | cat <;> rw [hfind] at h
  · exact absurd (beq_iff_eq.2 hid) (List.find?_eq_none.1 hfind c h)
  · obtain ⟨c0, hc0, hc0eq⟩ := List.mem_map.1 h
    have hcatmem : cat ∈ db.categories := List.mem_of_find?_eq_some hfind
    have hcatid : cat.id = cid := by simpa using List.find?_some hfind
    by_cases h0 : c0.id == cid
    · have hc0cat : c0 = cat := by
        apply List.inj_on_of_nodup_map hnodup hc0 hcatmem
        rw [hcatid]
        exact beq_iff_eq.1 h0
      have hc : c = { c0 with
                      activity := sumAmounts (categoryTransactions db cid)
                      available := cat.assigned - sumAmounts (categoryTransactions db cid) } := by
        rw [← hc0eq]
        simp [h0]
      constructor
      · rw [hc]
      · simp [hc, hc0cat]
    · exfalso
      apply h0
      have hcc : c0.id = c.id := by rw [← hc0eq]; simp [h0]
      rw [beq_iff_eq, hcc, hid]

theorem recalcCat_inv_all (db : DB) (cid : String)
    (hnodup : (db.categories.map Category.id).Nodup)
    (hinv : ∀ c ∈ db.categories, c.available = c.assigned - c.activity) :
    ∀ c ∈ (recalculateCategoryActivity db cid).categories,
      c.available = c.assigned - c.activity := by
  intro c hc
  by_cases hid : c.id = cid
  · exact (recalcCat_mem_eq db cid c hnodup hc hid).2
  · exact hinv c (recalcCat_mem_ne db cid c hc hid)

theorem recalcCatIf_transactions (db : DB) (o : Option String) :
    (recalcCategoryIfSet db o).transactions = db.transactions := by
  rcases o with _ | c
  · rfl
  · unfold recalcCategoryIfSet
    by_cases hc : c == "" <;> simp [hc, recalcCat_transactions]

theorem recalcCatIf_accounts (db : DB) (o : Option String) :
    (recalcCategoryIfSet db o).accounts = db.accounts := by
  rcases o with _ | c
  · rfl
  · unfold recalcCategoryIfSet
    by_cases hc : c == "" <;> simp [hc, recalcCat_accounts]

theorem recalcCatIf_catIds (db : DB) (o : Option String) :
    (recalcCategoryIfSet db o).categories.map Category.id =
      db.categories.map Category.id := by
  rcases o with _ | c
  · rfl
  · unfold recalcCategoryIfSet
    by_cases hc : c == "" <;> simp [hc, recalcCat_catIds]

theorem recalcCatIf_inv_all (db : DB) (o : Option String)
    (hnodup : (db.categories.map Category.id).Nodup)
    (hinv : ∀ c ∈ db.categories, c.available = c.assigned - c.activity) :
    ∀ c ∈ (recalcCategoryIfSet db o).categories,
      c.available = c.assigned - c.activity := by
  rcases o with _ | c
  · exact hinv
  · unfold recalcCategoryIfSet
    by_cases hc : c == "" <;> simp [hc]
    · exact hinv
    · exact recalcCat_inv_all db c hnodup hinv

theorem updateCategoryPhase_transactions (db : DB) (o : Option String) (u : TransactionUpdates) :
    (updateCategoryPhase db o u).transactions = db.transactions := by
  unfold updateCategoryPhase
  rcases u.category_id with _ | oc
  · exact recalcCatIf_transactions db o
  · rcases oc with _ | c
    · exact recalcCatIf_transactions db o
    · by_cases hc : c == "" || some c == o <;>
        simp [hc, recalcCat_transactions, recalcCatIf_transactions]

theorem updateCategoryPhase_accounts (db : DB) (o : Option String) (u : TransactionUpdates) :
    (updateCategoryPhase db o u).accounts = db.accounts := by
  unfold updateCategoryPhase
  rcases u.category_id with _ | oc
  · exact recalcCatIf_accounts db o
  · rcases oc with _ | c
    · exact recalcCatIf_accounts db o
    · by_cases hc : c == "" || some c == o <;>
        simp [hc, recalcCat_accounts, recalcCatIf_accounts]

theorem updateCategoryPhase_catIds (db : DB) (o : Option String) (u : TransactionUpdates) :
    (updateCategoryPhase db o u).categories.map Category.id =
      db.categories.map Category.id := by
  unfold updateCategoryPhase
  rcases u.category_id with _ | oc
  · exact recalcCatIf_catIds db o
  · rcases oc with _ | c
    · exact recalcCatIf_catIds db o
    · by_cases hc : c == "" || some c == o <;>
        simp [hc, recalcCat_catIds, recalcCatIf_catIds]

theorem updateCategoryPhase_inv_all (db : DB) (o : Option String) (u : TransactionUpdates)
    (hnodup : (db.categories.map Category.id).Nodup)
    (hinv : ∀ c ∈ db.categories, c.available = c.assigned - c.activity) :
    ∀ c ∈ (updateCategoryPhase db o u).categories,
      c.available = c.assigned - c.activity := by
  unfold updateCategoryPhase
  rcases u.category_id with _ | oc
  · exact recalcCatIf_inv_all db o hnodup hinv
  · rcases oc with _ | c
    · exact recalcCatIf_inv_all db o hnodup hinv
    · by_cases hc : c == "" || some c == o <;> simp [hc]
      · exact recalcCatIf_inv_all db o hnodup hinv
      · refine recalcCat_inv_all _ c ?_ (recalcCatIf_inv_all db o hnodup hinv)
        rw [recalcCatIf_catIds]
        exact hnodup

theorem recalcAcc_ok_elim (db : DB) (aid : String) (db' : DB)
    (h : recalculateAccountBalance db aid = .ok db') :
    db'.transactions = db.transactions ∧ db'.categories = db.categories ∧
    db'.accounts.map Account.id = db.accounts.map Account.id ∧
    (∀ a ∈ db'.accounts, ¬ a.id = aid → a ∈ db.accounts) ∧
    (∀ a ∈ db'.accounts, a.id = aid →
      a.cleared_balance = sumAmounts (accountTransactions db aid)) := by
  unfold recalculateAccountBalance at h
  by_cases hfind : (db.accounts.find? (fun a => a.id == aid)).isSome
  · rw [if_pos hfind] at h
    simp only [Except.ok.injEq] at h
    subst h
    refine ⟨rfl, rfl, ?_, ?_, ?_⟩
    · refine map_proj_of_preserve _ _ _ fun a => ?_
      by_cases ha : a.id == aid <;> simp [ha]
    · intro a ha hne
      obtain ⟨a0, ha0, ha0eq⟩ := List.mem_map.1 ha
      by_cases h0 : a0.id == aid
      · have : a0.id = aid := beq_iff_eq.1 h0
        exact absurd (by rw [← ha0eq]; simp [h0, this]) hne
      · rw [← ha0eq]
        simpa [h0] using ha0
    · intro a ha hid
      obtain ⟨a0, ha0, ha0eq⟩ := List.mem_map.1 ha
      by_cases h0 : a0.id == aid
      · rw [← ha0eq]
        simp [h0]
      · exfalso
        apply h0
        have haa : a0.id = a.id := by rw [← ha0eq]; simp [h0]
        rw [beq_iff_eq, haa, hid]
  · rw [if_neg hfind] at h
    exact absurd h (by simp)

theorem recalcAccIf_ok_elim (db : DB) (o : Option String) (db' : DB)
    (h : recalcAccountIfSet db o = .ok db') :
    db'.transactions = db.transactions ∧ db'.categories = db.categories ∧
    db'.accounts.map Account.id = db.accounts.map Account.id := by
  rcases o with _ | a
  · simp only [recalcAccountIfSet, Except.ok.injEq] at h
    subst h
    exact ⟨rfl, rfl, rfl⟩
  · simp only [recalcAccountIfSet] at h
    by_cases ha : a == ""
    · rw [if_pos ha] at h
      simp only [Except.ok.injEq] at h
      subst h
      exact ⟨rfl, rfl, rfl⟩
    · rw [if_neg ha] at h
      obtain ⟨h1, h2, h3, _, _⟩ := recalcAcc_ok_elim db a db' h
      exact ⟨h1, h2, h3⟩

theorem recalcAccIf_established (db : DB) (a : String) (db' : DB)
    (ha : ¬ a = "") (h : recalcAccountIfSet db (some a) = .ok db') :
    ∀ acc ∈ db'.accounts, acc.id = a →
      acc.cleared_balance = sumAmounts (accountTransactions db' a) := by
  simp only [recalcAccountIfSet] at h
  rw [if_neg (by simpa using ha)] at h
  obtain ⟨htr, _, _, _, hbal⟩ := recalcAcc_ok_elim db a db' h
  intro acc hacc hid
  rw [hbal acc hacc hid]
  unfold accountTransactions
  rw [htr]

theorem oldStep_ok_elim (db : DB) (oA : Option String) (oS : TStatus)
    (u : TransactionUpdates) (db' : DB)
    (h : updateOldAccountStep db oA oS u = .ok db') :
    db'.transactions = db.transactions ∧ db'.categories = db.categories ∧
    db'.accounts.map Account.id = db.accounts.map Account.id := by
  rcases oA with _ | a
  · simp only [updateOldAccountStep, Except.ok.injEq] at h
    subst h
    exact ⟨rfl, rfl, rfl⟩
  · simp only [updateOldAccountStep] at h
    by_cases ha : a == ""
    · rw [if_pos ha] at h
      simp only [Except.ok.injEq] at h
      subst h
      exact ⟨rfl, rfl, rfl⟩
    · rw [if_neg ha] at h
      by_cases hcond : u.account_id != some a || u.status != some oS
      · rw [if_pos hcond] at h
        obtain ⟨h1, h2, h3, _, _⟩ := recalcAcc_ok_elim db a db' h
        exact ⟨h1, h2, h3⟩
      · rw [if_neg hcond] at h
        simp only [Except.ok.injEq] at h
        subst h
        exact ⟨rfl, rfl, rfl⟩

theorem oldStep_established (db : DB) (a : String) (oS : TStatus)
    (u : TransactionUpdates) (db' : DB) (ha : ¬ a = "")
    (hcond : ¬ u.account_id = some a ∨ ¬ u.status = some oS)
    (h : updateOldAccountStep db (some a) oS u = .ok db') :
    ∀ acc ∈ db'.accounts, acc.id = a →
      acc.cleared_balance = sumAmounts (accountTransactions db' a) := by
  simp only [updateOldAccountStep] at h
  rw [if_neg (by simpa using ha), if_pos (by
    simp only [Bool.or_eq_true, bne_iff_ne]
    exact hcond)] at h
  obtain ⟨htr, _, _, _, hbal⟩ := recalcAcc_ok_elim db a db' h
  intro acc hacc hid
  rw [hbal acc hacc hid]
  unfold accountTransactions
  rw [htr]

theorem oldStep_skip (db : DB) (a : String) (oS : TStatus) (u : TransactionUpdates)
    (hacc : u.account_id = some a) (hst : u.status = some oS) :
    updateOldAccountStep db (some a) oS u = .ok db := by
  simp only [updateOldAccountStep]
  by_cases ha : a == ""
  · rw [if_pos ha]
  · rw [if_neg ha, if_neg (by simp [hacc, hst])]

theorem accountPhase_ok_elim (db : DB) (oA : Option String) (oS : TStatus)
    (u : TransactionUpdates) (db' : DB)
    (h : updateAccountPhase db oA oS u = .ok db') :
    db'.transactions = db.transactions ∧ db'.categories = db.categories ∧
    db'.accounts.map Account.id = db.accounts.map Account.id := by
  simp only [updateAccountPhase] at h
  split at h
  next a' heq =>
    split at h
    · exact oldStep_ok_elim db oA oS u db' h
    · rcases hA : updateOldAccountStep db oA oS u with e | db4 <;> rw [hA] at h
      · exact absurd h (by simp)
      · obtain ⟨h1, h2, h3⟩ := oldStep_ok_elim db oA oS u db4 hA
        obtain ⟨g1, g2, g3, _, _⟩ := recalcAcc_ok_elim db4 a' db' h
        exact ⟨g1.trans h1, g2.trans h2, g3.trans h3⟩
  next heq => exact oldStep_ok_elim db oA oS u db' h

theorem accountPhase_old_established (db : DB) (a : String) (oS : TStatus)
    (u : TransactionUpdates) (db' : DB) (ha : ¬ a = "")
    (hcond : ¬ u.account_id = some a ∨ ¬ u.status = some oS)
    (h : updateAccountPhase db (some a) oS u = .ok db') :
    ∀ acc ∈ db'.accounts, acc.id = a →
      acc.cleared_balance = sumAmounts (accountTransactions db' a) := by
  simp only [updateAccountPhase] at h
  split at h
  next a' heq =>
    split at h
    · exact oldStep_established db a oS u db' ha hcond h
    next hskip =>
      rcases hA : updateOldAccountStep db (some a) oS u with e | db4 <;> rw [hA] at h
      · exact absurd h (by simp)
      · have hestab := oldStep_established db a oS u db4 ha hcond hA
        obtain ⟨g1, _, _, gne, _⟩ := recalcAcc_ok_elim db4 a' db' h
        have hane : ¬ a = a' := by
          intro hEq
          exact hskip (by simp [hEq])
        intro acc hacc hid
        have haccmem : acc ∈ db4.accounts := by
          refine gne acc hacc ?_
          rw [hid]
          exact hane
        rw [hestab acc haccmem hid]
        unfold accountTransactions
        rw [g1]
  next heq => exact oldStep_established db a oS u db' ha hcond h

theorem accountPhase_new_established (db : DB) (oA : Option String) (oS : TStatus)
    (u : TransactionUpdates) (a' : String) (db' : DB)
    (hu : u.account_id = some a') (ha' : ¬ a' = "") (hnew : ¬ some a' = oA)
    (h : updateAccountPhase db oA oS u = .ok db') :
    ∀ acc ∈ db'.accounts, acc.id = a' →
      acc.cleared_balance = sumAmounts (accountTransactions db' a') := by
  simp only [updateAccountPhase] at h
  split at h
  next a2 heq =>
    have ha2 : a2 = a' := by
      rw [hu] at heq
      exact (Option.some.inj heq).symm
    subst ha2
    rw [if_neg (by simp [ha', hnew])] at h
    rcases hA : updateOldAccountStep db oA oS u with e | db4 <;> rw [hA] at h
    · exact absurd h (by simp)
    · obtain ⟨g1, _, _, _, gbal⟩ := recalcAcc_ok_elim db4 a2 db' h
      intro acc hacc hid
      rw [gbal acc hacc hid]
      unfold accountTransactions
      rw [g1]
  next heq =>
    rw [hu] at heq
    exact absurd heq (by simp)

theorem accountPhase_stale (db : DB) (a : String) (oS : TStatus) (u : TransactionUpdates)
    (hacc : u.account_id = some a) (hst : u.status = some oS) :
    updateAccountPhase db (some a) oS u = .ok db := by
  simp only [updateAccountPhase]
  rw [hacc]
  simp [oldStep_skip db a oS u hacc hst]

theorem moveMoney_inv_all (db : DB) (f t : String) (m : ℚ) (db' : DB)
    (hnodup : (db.categories.map Category.id).Nodup)
    (hinv : ∀ c ∈ db.categories, c.available = c.assigned - c.activity)
    (h : moveMoney db f t m = .ok db') :
    ∀ c ∈ db'.categories, c.available = c.assigned - c.activity := by
  unfold moveMoney at h
  rcases hf : db.categories.find? (fun c => c.id == f) with _ | fromCat <;> rw [hf] at h
  · exact absurd h (by simp)
  rcases ht : db.categories.find? (fun c => c.id == t) with _ | toCat <;> rw [ht] at h
  · exact absurd h (by simp)
  simp only [Except.ok.injEq] at h
  subst h
  intro c hc
  obtain ⟨c1, hc1, hc1eq⟩ := List.mem_map.1 hc
  obtain ⟨c0, hc0, hc0eq⟩ := List.mem_map.1 hc1
  have hfromMem : fromCat ∈ db.categories := List.mem_of_find?_eq_some hf
  have hfromId : fromCat.id = f := by simpa using List.find?_some hf
  have htoMem : toCat ∈ db.categories := List.mem_of_find?_eq_some ht
  have htoId : toCat.id = t := by simpa using List.find?_some ht
  have hc1id : c1.id = c0.id := by
    rw [← hc0eq]
    by_cases h1 : c0.id == f <;> simp [h1]
  have hact : c1.activity = c0.activity := by
    rw [← hc0eq]
    by_cases h1 : c0.id == f <;> simp [h1]
  by_cases h2 : c1.id == t
  · have hceq : c = { c1 with
                      assigned := toCat.assigned + m
                      available := toCat.assigned + m - toCat.activity } := by
      rw [← hc1eq]
      simp [h2]
    have hc0t : c0 = toCat := by
      apply List.inj_on_of_nodup_map hnodup hc0 htoMem
      rw [htoId, ← hc1id]
      exact beq_iff_eq.1 h2
    rw [hceq]
    simp [hact, hc0t]
  · have hceq : c = c1 := by
      rw [← hc1eq]
      simp [h2]
    by_cases h1 : c0.id == f
    · have hc1val : c1 = { c0 with
                           assigned := fromCat.assigned - m
                           available := fromCat.assigned - m - fromCat.activity } := by
        rw [← hc0eq]
        simp [h1]
      have hc0f : c0 = fromCat := by
        apply List.inj_on_of_nodup_map hnodup hc0 hfromMem
        rw [hfromId]
        exact beq_iff_eq.1 h1
      rw [hceq, hc1val]
      simp [hc0f]
    · have hc1val : c1 = c0 := by
        rw [← hc0eq]
        simp [h1]
      rw [hceq, hc1val]
      exact hinv c0 hc0

/-! ### Claim theorems -/

/-- C2: for every category, `available == assigned − activity` holds
immediately after any transaction create/update/delete affecting that
category — on `addTransaction` the recalculation sets `activity` to the sum
of the amounts of the transactions referencing the category and `available`
to `assigned` minus that sum, with no assumption on the prior state — and
every modelled operation of the system (`addTransaction`,
`updateTransaction`, `deleteTransaction`, `moveMoney`) preserves the
equality for every category. -/
theorem c2_envelope_invariant (db db' : DB) (op : Op)
    (hnodup : (db.categories.map Category.id).Nodup)
    (hok : applyOp db op = .ok db')
    (hinv : ∀ c ∈ db.categories, c.available = c.assigned - c.activity) :
    (∀ c ∈ db'.categories, c.available = c.assigned - c.activity) ∧
    (∀ newId nt cid, op = Op.add newId nt → nt.category_id = some cid → ¬ cid = "" →
      ∀ c ∈ db'.categories, c.id = cid →
        c.activity = sumAmounts (categoryTransactions db' cid) ∧
        c.available = c.assigned - c.activity) := by
  cases op with
  | add newId nt =>
    simp only [applyOp, addTransaction] at hok
    split at hok
    · exact absurd hok (by simp)
    · obtain ⟨htr, hcats, _⟩ := recalcAccIf_ok_elim _ _ _ hok
      constructor
      · intro c hc
        rw [hcats] at hc
        exact recalcCatIf_inv_all
          { db with transactions := db.transactions ++ [nt.withId newId] }
          nt.category_id hnodup hinv c hc
      · intro newId' nt' cid hopEq hcid hne c hc hcid2
        injection hopEq with hEq1 hEq2
        subst hEq2
        rw [hcats] at hc
        rw [hcid] at hc
        have hc' : c ∈ (recalculateCategoryActivity
            { db with transactions := db.transactions ++ [nt.withId newId] } cid).categories := by
          simpa [recalcCategoryIfSet, hne] using hc
        obtain ⟨hact, havail⟩ := recalcCat_mem_eq
          { db with transactions := db.transactions ++ [nt.withId newId] }
          cid c hnodup hc' hcid2
        refine ⟨?_, havail⟩
        rw [hact]
        unfold categoryTransactions
        rw [htr, recalcCatIf_transactions]
  | update tid u =>
    simp only [applyOp, updateTransaction] at hok
    split at hok
    · exact absurd hok (by simp)
    next old heq =>
      obtain ⟨_, hcats, _⟩ := accountPhase_ok_elim _ _ _ _ _ hok
      constructor
      · intro c hc
        rw [hcats] at hc
        exact updateCategoryPhase_inv_all
          { db with transactions := db.transactions.map fun t =>
              if t.id == tid then applyTransactionUpdates t u else t }
          old.category_id u hnodup hinv c hc
      · intro newId nt cid hopEq
        exact absurd hopEq (by simp)
  | delete tid =>
    simp only [applyOp, deleteTransaction] at hok
    obtain ⟨_, hcats, _⟩ := recalcAccIf_ok_elim _ _ _ hok
    constructor
    · intro c hc
      rw [hcats] at hc
      exact recalcCatIf_inv_all
        { db with transactions := db.transactions.filter fun t => !(t.id == tid) }
        _ hnodup hinv c hc
    · intro newId nt cid hopEq
      exact absurd hopEq (by simp)
  | move f t m =>
    simp only [applyOp] at hok
    constructor
    · exact moveMoney_inv_all db f t m db' hnodup hinv hok
    · intro newId nt cid hopEq
      exact absurd hopEq (by simp)

/-- Witness for C2: adding a categorized transaction of −25 to a fresh
budget leaves every category satisfying the envelope equation, and the
affected category's activity equals the sum over its transactions. -/
theorem c2_envelope_invariant_witness :
    (∀ c ∈ ({ transactions := [c2NewTransaction.withId "t1"],
              categories := [{ c2Category with activity := -25, available := 125 }],
              accounts := [] } : DB).categories,
        c.available = c.assigned - c.activity) ∧
    (∀ newId nt cid, Op.add "t1" c2NewTransaction = Op.add newId nt →
      nt.category_id = some cid → ¬ cid = "" →
      ∀ c ∈ ({ transactions := [c2NewTransaction.withId "t1"],
               categories := [{ c2Category with activity := -25, available := 125 }],
               accounts := [] } : DB).categories,
        c.id = cid →
        c.activity = sumAmounts (categoryTransactions
          { transactions := [c2NewTransaction.withId "t1"],
            categories := [{ c2Category with activity := -25, available := 125 }],
            accounts := [] } cid) ∧
        c.available = c.assigned - c.activity) :=
  c2_envelope_invariant c2Db
    { transactions := [c2NewTransaction.withId "t1"],
      categories := [{ c2Category with activity := -25, available := 125 }],
      accounts := [] }
    (Op.add "t1" c2NewTransaction) (by with_unfolding_all decide)
    (by with_unfolding_all decide) (by with_unfolding_all decide)

/-- C1 (amended): `cleared_balance` equals the sum of the amounts of the
account's transactions after `addTransaction` and `deleteTransaction` for
the affected account, and after `updateTransaction` for the previous
account only when the update's `account_id` or `status` differs from the
stored values, and for the new account when it is truthy and differs from
the old; an update that passes the same `account_id` and `status` (for
example changing only the amount) leaves the accounts untouched, so the
stored balance can go stale. -/
theorem c1_balance_recalculation (db db' : DB) :
    (∀ newId nt aid, addTransaction db newId nt = .ok db' →
      nt.account_id = some aid → ¬ aid = "" →
      ∀ a ∈ db'.accounts, a.id = aid →
        a.cleared_balance = sumAmounts (accountTransactions db' aid)) ∧
    (∀ tid t0 aid, deleteTransaction db tid = .ok db' →
      db.transactions.find? (fun t => t.id == tid) = some t0 →
      t0.account_id = some aid → ¬ aid = "" →
      ∀ a ∈ db'.accounts, a.id = aid →
        a.cleared_balance = sumAmounts (accountTransactions db' aid)) ∧
    (∀ tid u t0 aid, updateTransaction db tid u = .ok db' →
      db.transactions.find? (fun t => t.id == tid) = some t0 →
      t0.account_id = some aid → ¬ aid = "" →
      (¬ u.account_id = some aid ∨ ¬ u.status = some t0.status) →
      ∀ a ∈ db'.accounts, a.id = aid →
        a.cleared_balance = sumAmounts (accountTransactions db' aid)) ∧
    (∀ tid u t0 aid, updateTransaction db tid u = .ok db' →
      db.transactions.find? (fun t => t.id == tid) = some t0 →
      u.account_id = some aid → ¬ aid = "" → ¬ some aid = t0.account_id →
      ∀ a ∈ db'.accounts, a.id = aid →
        a.cleared_balance = sumAmounts (accountTransactions db' aid)) ∧
    (∀ tid u t0 aid, updateTransaction db tid u = .ok db' →
      db.transactions.find? (fun t => t.id == tid) = some t0 →
      t0.account_id = some aid → u.account_id = some aid → u.status = some t0.status →
      db'.accounts = db.accounts) := by
  refine ⟨?_, ?_, ?_, ?_, ?_⟩
  · intro newId nt aid hok hacc hane a ha hid
    simp only [addTransaction] at hok
    split at hok
    · exact absurd hok (by simp)
    · rw [hacc] at hok
      exact recalcAccIf_established _ aid db' hane hok a ha hid
  · intro tid t0 aid hok hfind hacc hane a ha hid
    simp only [deleteTransaction, hfind] at hok
    rw [hacc] at hok
    exact recalcAccIf_established _ aid db' hane hok a ha hid
  · intro tid u t0 aid hok hfind hacc hane hcond a ha hid
    simp only [updateTransaction, hfind] at hok
    rw [hacc] at hok
    exact accountPhase_old_established _ aid t0.status u db' hane hcond hok a ha hid
  · intro tid u t0 aid hok hfind hu hane hnew a ha hid
    simp only [updateTransaction, hfind] at hok
    exact accountPhase_new_established _ t0.account_id t0.status u aid db' hu hane hnew hok a ha hid
  · intro tid u t0 aid hok hfind hta hu hst
    simp only [updateTransaction, hfind] at hok
    rw [hta, accountPhase_stale _ aid t0.status u hu hst] at hok
    simp only [Except.ok.injEq] at hok
    rw [← hok, updateCategoryPhase_accounts]

/-- Counterexample to C1 as stated: updating only the amount of the single
transaction of account `a1` — passing the unchanged `account_id` and
`status`, as the edit form does — succeeds, yet leaves `cleared_balance`
at 10 while the sum of the account's transactions is now 20. -/
theorem c1_counterexample :
    updateTransaction c1Db "t1" c1Updates =
      .ok { transactions := [{ c1Transaction with amount := 20 }],
            categories := [], accounts := [c1Account] } ∧
    sumAmounts (accountTransactions
      { transactions := [{ c1Transaction with amount := 20 }],
        categories := [], accounts := [c1Account] } "a1") = 20 ∧
    c1Account.cleared_balance = 10 ∧ ¬ (10 : ℚ) = 20 := by
  refine ⟨by with_unfolding_all decide, by with_unfolding_all decide,
    by with_unfolding_all decide, by with_unfolding_all decide⟩

/-- C10 (amended): for two existing, distinct categories, `moveMoney`
decreases the source's `assigned` by the amount, increases the target's by
the amount, leaves both activities unchanged, re-establishes
`available = assigned − activity` for both, conserves the sums of
`assigned` and (when the invariant held before) of `available`, and leaves
every other category untouched; when either category does not exist it
fails with an error. (As stated over arbitrary pairs the claim fails when
the two ids coincide, see the counterexample.) -/
theorem c10_moveMoney (db : DB) (f t : String) (m : ℚ) (fromCat toCat : Category)
    (hnodup : (db.categories.map Category.id).Nodup)
    (hf : db.categories.find? (fun c => c.id == f) = some fromCat)
    (ht : db.categories.find? (fun c => c.id == t) = some toCat)
    (hne : ¬ f = t) :
    ∃ db', moveMoney db f t m = .ok db' ∧
      (∀ c ∈ db'.categories, c.id = f →
        c.assigned = fromCat.assigned - m ∧ c.activity = fromCat.activity ∧
        c.available = c.assigned - c.activity) ∧
      (∀ c ∈ db'.categories, c.id = t →
        c.assigned = toCat.assigned + m ∧ c.activity = toCat.activity ∧
        c.available = c.assigned - c.activity) ∧
      (∀ c ∈ db'.categories, ¬ c.id = f → ¬ c.id = t → c ∈ db.categories) ∧
      (fromCat.assigned - m) + (toCat.assigned + m) = fromCat.assigned + toCat.assigned ∧
      (fromCat.available = fromCat.assigned - fromCat.activity →
        toCat.available = toCat.assigned - toCat.activity →
        (fromCat.assigned - m - fromCat.activity) + (toCat.assigned + m - toCat.activity) =
          fromCat.available + toCat.available) ∧
      (∀ g h : String, ∀ m' : ℚ,
        ((db.categories.find? (fun c => c.id == g)).isNone ∨
         (db.categories.find? (fun c => c.id == h)).isNone) →
        moveMoney db g h m' = .error "Category not found") := by
  have hfromId : fromCat.id = f := by simpa using List.find?_some hf
  have htoId : toCat.id = t := by simpa using List.find?_some ht
  refine ⟨_, by unfold moveMoney; rw [hf, ht], ?_, ?_, ?_, by ring, ?_, ?_⟩
  · intro c hc hcf
    obtain ⟨c1, hc1, hc1eq⟩ := List.mem_map.1 hc
    obtain ⟨c0, hc0, hc0eq⟩ := List.mem_map.1 hc1
    have hc1id : c1.id = c0.id := by
      rw [← hc0eq]
      by_cases h1 : c0.id == f <;> simp [h1]
    have hcid : c.id = c1.id := by
      rw [← hc1eq]
      by_cases h2 : c1.id == t <;> simp [h2]
    have h2f : ¬ (c1.id == t) = true := by
      rw [beq_iff_eq, ← hcid, hcf]
      exact hne
    have hceq : c = c1 := by rw [← hc1eq]; simp [h2f]
    have h1t : (c0.id == f) = true := by
      rw [beq_iff_eq, ← hc1id, ← hcid, hcf]
    have hc1val : c1 = { c0 with
                         assigned := fromCat.assigned - m
                         available := fromCat.assigned - m - fromCat.activity } := by
      rw [← hc0eq]
      simp [h1t]
    have hc0f : c0 = fromCat := by
      apply List.inj_on_of_nodup_map hnodup hc0 (List.mem_of_find?_eq_some hf)
      rw [hfromId]
      exact beq_iff_eq.1 h1t
    rw [hceq, hc1val]
    simp [hc0f]
  · intro c hc hct
    obtain ⟨c1, hc1, hc1eq⟩ := List.mem_map.1 hc
    obtain ⟨c0, hc0, hc0eq⟩ := List.mem_map.1 hc1
    have hc1id : c1.id = c0.id := by
      rw [← hc0eq]
      by_cases h1 : c0.id == f <;> simp [h1]
    have hcid : c.id = c1.id := by
      rw [← hc1eq]
      by_cases h2 : c1.id == t <;> simp [h2]
    have h2t : (c1.id == t) = true := by rw [beq_iff_eq, ← hcid, hct]
    have hceq : c = { c1 with
                      assigned := toCat.assigned + m
                      available := toCat.assigned + m - toCat.activity } := by
      rw [← hc1eq]
      simp [h2t]
    have hact : c1.activity = c0.activity := by
      rw [← hc0eq]
      by_cases h1 : c0.id == f <;> simp [h1]
    have hc0t : c0 = toCat := by
      apply List.inj_on_of_nodup_map hnodup hc0 (List.mem_of_find?_eq_some ht)
      rw [htoId, ← hc1id, ← hcid, hct]
    rw [hceq]
    simp [hact, hc0t]
  · intro c hc hcf hct
    obtain ⟨c1, hc1, hc1eq⟩ := List.mem_map.1 hc
    obtain ⟨c0, hc0, hc0eq⟩ := List.mem_map.1 hc1
    have hc1id : c1.id = c0.id := by
      rw [← hc0eq]
      by_cases h1 : c0.id == f <;> simp [h1]
    have hcid : c.id = c1.id := by
      rw [← hc1eq]
      by_cases h2 : c1.id == t <;> simp [h2]
    have h2f : ¬ (c1.id == t) = true := by rw [beq_iff_eq, ← hcid]; exact hct
    have h1f : ¬ (c0.id == f) = true := by rw [beq_iff_eq, ← hc1id, ← hcid]; exact hcf
    have hceq : c = c1 := by rw [← hc1eq]; simp [h2f]
    have hc1val : c1 = c0 := by rw [← hc0eq]; simp [h1f]
    rw [hceq, hc1val]
    exact hc0
  · intro h1 h2
    rw [h1, h2]
    ring
  · intro g h m' hmiss
    unfold moveMoney
    rcases hg : db.categories.find? (fun c => c.id == g) with _ | gc <;> rw [hg]
    rcases hh : db.categories.find? (fun c => c.id == h) with _ | hc2 <;> rw [hh]
    exfalso
    rcases hmiss with hm1 | hm1
    · rw [hg] at hm1
      exact absurd hm1 (by simp)
    · rw [hh] at hm1
      exact absurd hm1 (by simp)

/-- Witness for C10: moving 3 between two distinct concrete categories
yields all the amended claim's conclusions. -/
theorem c10_moveMoney_witness :
    ∃ db', moveMoney c10Db2 "from" "to" 3 = .ok db' ∧
      (∀ c ∈ db'.categories, c.id = "from" →
        c.assigned = c10From.assigned - 3 ∧ c.activity = c10From.activity ∧
        c.available = c.assigned - c.activity) ∧
      (∀ c ∈ db'.categories, c.id = "to" →
        c.assigned = c10To.assigned + 3 ∧ c.activity = c10To.activity ∧
        c.available = c.assigned - c.activity) ∧
      (∀ c ∈ db'.categories, ¬ c.id = "from" → ¬ c.id = "to" → c ∈ c10Db2.categories) ∧
      (c10From.assigned - 3) + (c10To.assigned + 3) = c10From.assigned + c10To.assigned ∧
      (c10From.available = c10From.assigned - c10From.activity →
        c10To.available = c10To.assigned - c10To.activity →
        (c10From.assigned - 3 - c10From.activity) + (c10To.assigned + 3 - c10To.activity) =
          c10From.available + c10To.available) ∧
      (∀ g h : String, ∀ m' : ℚ,
        ((c10Db2.categories.find? (fun c => c.id == g)).isNone ∨
         (c10Db2.categories.find? (fun c => c.id == h)).isNone) →
        moveMoney c10Db2 g h m' = .error "Category not found") :=
  c10_moveMoney c10Db2 "from" "to" 3 c10From c10To
    (by with_unfolding_all decide) (by with_unfolding_all decide)
    (by with_unfolding_all decide) (by with_unfolding_all decide)

/-- Counterexample to C10 as stated: `moveMoney` from a category to itself
first writes `assigned − 5`, then overwrites it with `assigned + 5`
computed from the stale snapshot, so the category's `assigned` rises from
10 to 15 instead of being conserved (and `from.assigned` is not decreased
by the amount). -/
theorem c10_counterexample :
    moveMoney c10Db "g" "g" 5 =
      .ok { transactions := [],
            categories := [{ c10Category with assigned := 15, available := 15 }],
            accounts := [] } ∧
    ¬ (15 : ℚ) = 10 - 5 := by
  refine ⟨by with_unfolding_all decide, by with_unfolding_all decide⟩

/-- C3: processing a message with a truthy `messageId`, a matched sender
domain and a successful parse twice over a state holding no transaction
with that `original_email_id` creates the transaction exactly once: after
both runs exactly one transaction with that `original_email_id` exists,
and the second processing increments the skip counter without creating or
modifying any transaction. -/
theorem c3_import_idempotent (accounts : List Account)
    (parse : EmailData → Option ParsedEmailTransaction) (st : SyncState) (e : EmailData)
    (hm : ¬ e.messageId = "")
    (hmatch : (findAccountByEmailDomain accounts e.fromAddr).isSome = true)
    (hparse : (parse e).isSome = true)
    (h0 : ∀ tx ∈ st.transactions, ¬ tx.original_email_id = some e.messageId) :
    ((processEmail accounts parse st e).transactions.filter
        (fun tx => tx.original_email_id == some e.messageId)).length = 1 ∧
    ((processEmail accounts parse (processEmail accounts parse st e) e).transactions.filter
        (fun tx => tx.original_email_id == some e.messageId)).length = 1 ∧
    (processEmail accounts parse (processEmail accounts parse st e) e).transactions =
      (processEmail accounts parse st e).transactions ∧
    (processEmail accounts parse (processEmail accounts parse st e) e).imported =
      (processEmail accounts parse st e).imported ∧
    (processEmail accounts parse (processEmail accounts parse st e) e).skipped =
      (processEmail accounts parse st e).skipped + 1 := by
  obtain ⟨acct, hacct⟩ := Option.isSome_iff_exists.1 hmatch
  obtain ⟨p, hp⟩ := Option.isSome_iff_exists.1 hparse
  have hany : (st.transactions.any fun tx => tx.original_email_id == some e.messageId) = false := by
    rw [List.any_eq_false]
    intro tx htx
    simp [h0 tx htx]
  have hguard1 : (e.messageId != "" &&
      st.transactions.any fun tx => tx.original_email_id == some e.messageId) = false := by
    rw [hany, Bool.and_false]
  have h1 : processEmail accounts parse st e =
      { st with
        transactions := st.transactions ++
          [{ id := "auto" ++ toString st.nextId
             date := p.date
             payee := p.payee
             amount := p.amount
             account_id := some acct.id
             status := .uncleared
             category_id := none
             notes := some (jsOrElse p.notes ("Auto-imported from " ++ e.fromAddr))
             original_email_id := some e.messageId }]
        imported := st.imported + 1
        nextId := st.nextId + 1
        readIds := if e.messageId != "" then st.readIds ++ [e.messageId] else st.readIds } := by
    unfold processEmail
    rw [hacct, hp, hguard1]
    simp
  have hany2 : ((processEmail accounts parse st e).transactions.any
      fun tx => tx.original_email_id == some e.messageId) = true := by
    rw [h1]
    simp [List.any_append]
  have h2 : processEmail accounts parse (processEmail accounts parse st e) e =
      { processEmail accounts parse st e with
        skipped := (processEmail accounts parse st e).skipped + 1 } := by
    conv in processEmail accounts parse (processEmail accounts parse st e) e =>
      rw [processEmail]
    rw [hacct, hp, hany2]
    simp [hm]
  have hfilter0 : st.transactions.filter
      (fun tx => tx.original_email_id == some e.messageId) = [] := by
    rw [List.filter_eq_nil_iff]
    intro tx htx
    simp [h0 tx htx]
  refine ⟨?_, ?_, ?_, ?_, ?_⟩
  · rw [h1]
    simp [List.filter_append, hfilter0]
  · rw [h2, h1]
    simp [List.filter_append, hfilter0]
  · rw [h2]
  · rw [h2]
  · rw [h2]

/-- Witness for C3: the Chase alert email with messageId `m1`, matched to
the linked account and parsed successfully, yields one transaction on the
first run and a pure skip on the second. -/
theorem c3_import_idempotent_witness :
    ((processEmail [c3Account] (fun _ => some c3Parsed) c3State c3Email).transactions.filter
        (fun tx => tx.original_email_id == some c3Email.messageId)).length = 1 ∧
    ((processEmail [c3Account] (fun _ => some c3Parsed)
        (processEmail [c3Account] (fun _ => some c3Parsed) c3State c3Email)
        c3Email).transactions.filter
        (fun tx => tx.original_email_id == some c3Email.messageId)).length = 1 ∧
    (processEmail [c3Account] (fun _ => some c3Parsed)
        (processEmail [c3Account] (fun _ => some c3Parsed) c3State c3Email)
        c3Email).transactions =
      (processEmail [c3Account] (fun _ => some c3Parsed) c3State c3Email).transactions ∧
    (processEmail [c3Account] (fun _ => some c3Parsed)
        (processEmail [c3Account] (fun _ => some c3Parsed) c3State c3Email)
        c3Email).imported =
      (processEmail [c3Account] (fun _ => some c3Parsed) c3State c3Email).imported ∧
    (processEmail [c3Account] (fun _ => some c3Parsed)
        (processEmail [c3Account] (fun _ => some c3Parsed) c3State c3Email)
        c3Email).skipped =
      (processEmail [c3Account] (fun _ => some c3Parsed) c3State c3Email).skipped + 1 :=
  c3_import_idempotent [c3Account] (fun _ => some c3Parsed) c3State c3Email
    (by decide) (by with_unfolding_all decide) (by decide) (by decide)

/-- C9: a message whose sender domain matches no account only increments
the skip counter — no transaction is created and the message is not marked
read — processing of the remaining messages and the remaining users
continues on the updated state, and in general a message's id is appended
to the marked-read list only in the branch that has just persisted a
transaction carrying that id as its `original_email_id`. -/
theorem c9_unmatched_domain_skip (accounts : List Account)
    (parse : EmailData → Option ParsedEmailTransaction) (st : SyncState) (e : EmailData)
    (hnone : findAccountByEmailDomain accounts e.fromAddr = none) :
    processEmail accounts parse st e = { st with skipped := st.skipped + 1 } ∧
    (∀ rest : List EmailData,
      processEmails accounts parse st (e :: rest) =
        processEmails accounts parse { st with skipped := st.skipped + 1 } rest) ∧
    (∀ (st' : SyncState) (e' : EmailData),
      ¬ (processEmail accounts parse st' e').readIds = st'.readIds →
      ∃ tx, (processEmail accounts parse st' e').transactions = st'.transactions ++ [tx] ∧
        tx.original_email_id = some e'.messageId) ∧
    (∀ (u : UserSyncInput) (rest : List UserSyncInput),
      runSync parse (u :: rest) = runUserSync parse u :: runSync parse rest) := by
  have h1 : processEmail accounts parse st e = { st with skipped := st.skipped + 1 } := by
    unfold processEmail
    rw [hnone]
  refine ⟨h1, ?_, ?_, ?_⟩
  · intro rest
    unfold processEmails
    rw [List.foldl_cons, h1]
  · intro st' e' hread
    rcases hfa : findAccountByEmailDomain accounts e'.fromAddr with _ | acct
    · refine absurd ?_ hread
      unfold processEmail
      rw [hfa]
    rcases hpa : parse e' with _ | p
    · refine absurd ?_ hread
      unfold processEmail
      rw [hfa, hpa]
    by_cases hguard : (e'.messageId != "" &&
        st'.transactions.any fun tx => tx.original_email_id == some e'.messageId) = true
    · refine absurd ?_ hread
      unfold processEmail
      rw [hfa, hpa]
      simp [hguard]
    · have hcreate : processEmail accounts parse st' e' =
          { st' with
            transactions := st'.transactions ++
              [{ id := "auto" ++ toString st'.nextId
                 date := p.date
                 payee := p.payee
                 amount := p.amount
                 account_id := some acct.id
                 status := .uncleared
                 category_id := none
                 notes := some (jsOrElse p.notes ("Auto-imported from " ++ e'.fromAddr))
                 original_email_id := some e'.messageId }]
            imported := st'.imported + 1
            nextId := st'.nextId + 1
            readIds := if e'.messageId != "" then st'.readIds ++ [e'.messageId]
                       else st'.readIds } := by
        unfold processEmail
        rw [hfa, hpa]
        simp [hguard]
      rw [hcreate]
      exact ⟨_, rfl, rfl⟩
  · intro u rest
    rfl

/-- Witness for C9: an email from `unknown.org` against an account linked
to `example.com` is skipped with the message left unread. -/
theorem c9_unmatched_domain_skip_witness :
    processEmail [c9Account] (fun _ => none) c3State c9Email =
      { c3State with skipped := c3State.skipped + 1 } ∧
    (∀ rest : List EmailData,
      processEmails [c9Account] (fun _ => none) c3State (c9Email :: rest) =
        processEmails [c9Account] (fun _ => none)
          { c3State with skipped := c3State.skipped + 1 } rest) ∧
    (∀ (st' : SyncState) (e' : EmailData),
      ¬ (processEmail [c9Account] (fun _ => none) st' e').readIds = st'.readIds →
      ∃ tx, (processEmail [c9Account] (fun _ => none) st' e').transactions =
          st'.transactions ++ [tx] ∧
        tx.original_email_id = some e'.messageId) ∧
    (∀ (u : UserSyncInput) (rest : List UserSyncInput),
      runSync (fun _ => none) (u :: rest) =
        runUserSync (fun _ => none) u :: runSync (fun _ => none) rest) :=
  c9_unmatched_domain_skip [c9Account] (fun _ => none) c3State c9Email
    (by with_unfolding_all decide)

/-- C4 (amended): `getGmailAccessToken` fails without any stored config;
it fails whenever the stored refresh token is falsy — this check precedes
the validity check, so even a still-valid access token is not returned
then (see the counterexample); with a truthy refresh token it returns a
truthy stored access token unchanged, with no refresh call, whenever the
stored expiry exceeds `now` plus five minutes; otherwise it makes exactly
one refresh call, persists the new access token with expiry `now` plus one
hour, and returns the new token. A token expiring ten minutes ahead is
returned unchanged. -/
theorem c4_token_refresh (c : GmailConfig) (now : ℤ) (r : Except String String) :
    getGmailAccessToken none now r =
      { outcome := .error "No Gmail tokens found for user", refreshCalls := 0, stored := none } ∧
    (strTruthy c.gmail_refresh_token = false →
      getGmailAccessToken (some c) now r =
        { outcome := .error "No refresh token found for user", refreshCalls := 0,
          stored := some c }) ∧
    (∀ tok : String, strTruthy c.gmail_refresh_token = true → c.gmail_access_token = some tok →
      ¬ tok = "" → now + 5 * 60 * 1000 < c.gmail_token_expiry.getD 0 →
      getGmailAccessToken (some c) now r =
        { outcome := .ok tok, refreshCalls := 0, stored := some c }) ∧
    (∀ newTok : String, strTruthy c.gmail_refresh_token = true →
      (strTruthy c.gmail_access_token = false ∨
        ¬ now + 5 * 60 * 1000 < c.gmail_token_expiry.getD 0) →
      r = .ok newTok →
      getGmailAccessToken (some c) now r =
        { outcome := .ok newTok, refreshCalls := 1,
          stored := some { c with gmail_access_token := some newTok,
                                  gmail_token_expiry := some (now + 3600 * 1000) } }) ∧
    getGmailAccessToken
      (some { gmail_refresh_token := some "r", gmail_access_token := some "t",
              gmail_token_expiry := some 600000 }) 0 r =
      { outcome := .ok "t", refreshCalls := 0,
        stored := some { gmail_refresh_token := some "r", gmail_access_token := some "t",
                         gmail_token_expiry := some 600000 } } := by
  refine ⟨rfl, ?_, ?_, ?_, ?_⟩
  · intro h
    simp [getGmailAccessToken, h]
  · intro tok h1 h2 h3 h4
    simp only [getGmailAccessToken]
    rw [h1, h2]
    simp [h3, h4]
    intro h5
    exact absurd h4 (by omega)
  · intro newTok h1 hvalid hr
    simp only [getGmailAccessToken]
    rw [h1, hr]
    rcases hacc : c.gmail_access_token with _ | tok
    · simp [tokenRefreshResult]
    · have hcondFalse : ¬ (tok ≠ "" ∧ now + 5 * 60 * 1000 < c.gmail_token_expiry.getD 0) := by
        rcases hvalid with hv | hv
        · rw [hacc] at hv
          intro ⟨ht, _⟩
          simp [strTruthy] at hv
          exact ht hv
        · intro ⟨_, hlt⟩
          exact hv hlt
      simp [hcondFalse, tokenRefreshResult]
      intro ht
      have hlt : ¬ now + 5 * 60 * 1000 < c.gmail_token_expiry.getD 0 :=
        fun hl => hcondFalse ⟨ht, hl⟩
      omega
  · simp [getGmailAccessToken, strTruthy]

/-- Counterexample to C4 as stated: a stored config with a valid access
token (expiry ten minutes past `now = 0`) but no refresh token makes
`getGmailAccessToken` fail instead of returning the stored token, because
the refresh-token check runs before the validity check. -/
theorem c4_counterexample :
    (0 : ℤ) + 5 * 60 * 1000 < 600000 ∧
    (getGmailAccessToken (some c4Config) 0 (.ok "new-token")).outcome =
      .error "No refresh token found for user" ∧
    ¬ (getGmailAccessToken (some c4Config) 0 (.ok "new-token")).outcome = .ok "stored-token" ∧
    (getGmailAccessToken (some c4Config) 0 (.ok "new-token")).refreshCalls = 0 := by
  refine ⟨by decide, by with_unfolding_all decide, by with_unfolding_all decide,
    by with_unfolding_all decide⟩

/-- The loop of `checkTransactionFlags` appends exactly the firing rules'
flags in rule order. -/
theorem checkTransactionFlags_eq (email : EmailData) (parsed : Option FlagInput) :
    checkTransactionFlags email parsed =
      (FLAG_RULES.filter (fun rule => rule.check email parsed)).map
        (fun rule => { reason := rule.id, resolved := false }) := by
  have haux : ∀ (rules : List FlagRule) (acc : List TransactionFlag),
      rules.foldl (fun flags rule =>
        if rule.check email parsed then
          flags ++ [{ reason := rule.id, resolved := false }]
        else flags) acc =
      acc ++ (rules.filter (fun rule => rule.check email parsed)).map
        (fun rule => { reason := rule.id, resolved := false }) := by
    intro rules
    induction rules with
    | nil => intro acc; simp
    | cons r rs ih =>
      intro acc
      by_cases hr : r.check email parsed <;> simp [hr, ih]
  rw [checkTransactionFlags, haux]
  simp

/-- Membership of a reason among the produced flags is exactly some rule
with that id firing. -/
theorem mem_flag_reason_iff (email : EmailData) (parsed : Option FlagInput) (r : String) :
    (r ∈ (checkTransactionFlags email parsed).map TransactionFlag.reason) ↔
      ∃ rule ∈ FLAG_RULES, rule.check email parsed = true ∧ rule.id = r := by
  rw [checkTransactionFlags_eq]
  simp only [List.map_map, List.mem_map, List.mem_filter, Function.comp]
  constructor
  · rintro ⟨rule, ⟨hmem, hcheck⟩, hid⟩
    exact ⟨rule, hmem, hcheck, hid⟩
  · rintro ⟨rule, hmem, hcheck, hid⟩
    exact ⟨rule, ⟨hmem, hcheck⟩, hid⟩

/-- C5 (amended): with a candidate present, `checkTransactionFlags`
appends a `low_confidence` flag iff the candidate's confidence is `low`,
and an `unusual_amount` flag iff the amount is present, non-zero (zero is
falsy, so the rule's early return skips it — see the counterexample) and
`abs(amount) > 10000` or `abs(amount) < 0.01`; each rule contributes at
most one flag; amounts −15000 and −0.005 are flagged `unusual_amount` and
−50 receives neither flag. -/
theorem c5_flag_rules_behaviour (email : EmailData) (p : FlagInput) :
    (("low_confidence" ∈ (checkTransactionFlags email (some p)).map TransactionFlag.reason) ↔
      p.confidence = Confidence.low) ∧
    (("unusual_amount" ∈ (checkTransactionFlags email (some p)).map TransactionFlag.reason) ↔
      (∃ a, p.amount = some a ∧ ¬ a = 0 ∧ (10000 < |a| ∨ |a| < 1 / 100))) ∧
    (∀ r : String,
      ((checkTransactionFlags email (some p)).map TransactionFlag.reason).count r ≤ 1) ∧
    ("unusual_amount" ∈ (checkTransactionFlags c5Email
      (some { confidence := .high, category_id := some "c", amount := some (-15000) })).map
      TransactionFlag.reason) ∧
    ("unusual_amount" ∈ (checkTransactionFlags c5Email
      (some { confidence := .high, category_id := some "c", amount := some (-5 / 1000) })).map
      TransactionFlag.reason) ∧
    ¬ ("unusual_amount" ∈ (checkTransactionFlags c5Email
      (some { confidence := .high, category_id := some "c", amount := some (-50) })).map
      TransactionFlag.reason) ∧
    ¬ ("low_confidence" ∈ (checkTransactionFlags c5Email
      (some { confidence := .high, category_id := some "c", amount := some (-50) })).map
      TransactionFlag.reason) := by
  refine ⟨?_, ?_, ?_, by with_unfolding_all decide, by with_unfolding_all decide,
    by with_unfolding_all decide, by with_unfolding_all decide⟩
  · rw [mem_flag_reason_iff]
    constructor
    · rintro ⟨rule, hmem, hcheck, hid⟩
      fin_cases hmem <;> simp_all [FLAG_RULES]
    · intro h
      refine ⟨{ id := "low_confidence"
                check := fun _ parsed =>
                  match parsed with
                  | some q => q.confidence == Confidence.low
                  | none => false }, ?_, by simp [h], rfl⟩
      simp [FLAG_RULES]
  · rw [mem_flag_reason_iff]
    constructor
    · rintro ⟨rule, hmem, hcheck, hid⟩
      fin_cases hmem <;> simp only [FLAG_RULES] at hcheck hid <;> try simp at hid
      rcases hpa : p.amount with _ | a
      · rw [hpa] at hcheck
        simp at hcheck
      · rw [hpa] at hcheck
        by_cases ha0 : a == 0
        · simp [ha0] at hcheck
        · refine ⟨a, rfl, by simpa using ha0, ?_⟩
          simp only [ha0, Bool.false_eq_true, if_false, Bool.or_eq_true,
            decide_eq_true_eq] at hcheck
          exact hcheck
    · rintro ⟨a, hpa, ha0, hab⟩
      refine ⟨{ id := "unusual_amount"
                check := fun _ parsed =>
                  match parsed with
                  | none => false
                  | some q =>
                    match q.amount with
                    | none => false
                    | some amount =>
                      if amount == 0 then false
                      else decide (10000 < |amount|) || decide (|amount| < 1 / 100) },
              ?_, ?_, rfl⟩
      · simp [FLAG_RULES]
      · have hval : (match p.amount with
            | none => false
            | some amount =>
              if amount == 0 then false
              else decide (10000 < |amount|) || decide (|amount| < 1 / 100)) = true := by
          rw [hpa]
          have ha0' : ¬ (a == 0) = true := by simpa using ha0
          simp only [ha0', Bool.false_eq_true, if_false, Bool.or_eq_true, decide_eq_true_eq]
          exact hab
        exact hval
  · intro r
    rw [checkTransactionFlags_eq]
    have hmapmap :
        ((FLAG_RULES.filter (fun rule => rule.check email (some p))).map
          (fun rule => ({ reason := rule.id, resolved := false } : TransactionFlag))).map
            TransactionFlag.reason =
        (FLAG_RULES.filter (fun rule => rule.check email (some p))).map
          (fun rule => rule.id) := by
      simp [List.map_map, Function.comp]
    rw [hmapmap]
    have hsub : List.Sublist
        ((FLAG_RULES.filter (fun rule => rule.check email (some p))).map (fun rule => rule.id))
        (FLAG_RULES.map (fun rule => rule.id)) :=
      (List.filter_sublist FLAG_RULES).map _
    have hndall : (FLAG_RULES.map (fun rule => rule.id)).Nodup := by
      simp [FLAG_RULES]
    exact List.nodup_iff_count_le_one.1 (hsub.nodup hndall) r

/-- Counterexample to C5 as stated: a candidate with amount 0 satisfies
`abs(amount) < 0.01`, yet no `unusual_amount` flag is appended, because
the rule returns early on the falsy amount. -/
theorem c5_counterexample :
    |(0 : ℚ)| < 1 / 100 ∧
    ¬ ("unusual_amount" ∈ (checkTransactionFlags c5Email
        (some { confidence := .high, category_id := some "c", amount := some 0 })).map
        TransactionFlag.reason) := by
  refine ⟨by with_unfolding_all decide, by with_unfolding_all decide⟩

/-- C6 (amended): the validation returns `none` when `date`, `payee` or
`amount` is missing; a string amount is coerced with `parseFloat`; a
numeric-string amount yields that number; but a non-numeric string amount
is not rejected — the candidate is returned with a NaN amount (parseFloat
of the string), see the counterexample. -/
theorem c6_extractor_validation (o : GeminiOutput) :
    (o.date = none → validateGeminiResponse o = none) ∧
    (o.payee = none → validateGeminiResponse o = none) ∧
    (o.amount = none → validateGeminiResponse o = none) ∧
    (∀ d p q, o.date = some d → ¬ d = "" → o.payee = some p → ¬ p = "" →
      o.amount = some (.num q) →
      validateGeminiResponse o =
        some { date := d, payee := p, amount := some q,
               notes := o.notes, confidence := o.confidence }) ∧
    (∀ d p s, o.date = some d → ¬ d = "" → o.payee = some p → ¬ p = "" →
      o.amount = some (.str s) →
      validateGeminiResponse o =
        some { date := d, payee := p, amount := jsParseFloat s,
               notes := o.notes, confidence := o.confidence }) := by
  obtain ⟨od, op, oam, onotes, oconf⟩ := o
  refine ⟨?_, ?_, ?_, ?_, ?_⟩
  · intro h
    simp only at h
    subst h
    rcases op with _ | p <;> rcases oam with _ | am <;> rfl
  · intro h
    simp only at h
    subst h
    rcases od with _ | d <;> rcases oam with _ | am <;> rfl
  · intro h
    simp only at h
    subst h
    rcases od with _ | d <;> rcases op with _ | p <;> rfl
  · intro d p q hd hdne hp hpne ham
    simp only at hd hp ham
    subst hd
    subst hp
    subst ham
    simp [validateGeminiResponse, hdne, hpne]
  · intro d p s hd hdne hp hpne ham
    simp only at hd hp ham
    subst hd
    subst hp
    subst ham
    simp [validateGeminiResponse, hdne, hpne]

/-- Counterexample to C6 as stated: a model output whose `amount` is the
non-numeric string `"abc"` is not rejected — the validation returns a
candidate whose amount is `parseFloat "abc"`, i.e. NaN. -/
theorem c6_counterexample :
    validateGeminiResponse
      { date := some "2024-11-15", payee := some "STORE", amount := some (.str "abc") } =
      some { date := "2024-11-15", payee := "STORE", amount := none,
             notes := none, confidence := none } ∧
    jsParseFloat "abc" = none ∧
    ¬ validateGeminiResponse
        { date := some "2024-11-15", payee := some "STORE", amount := some (.str "abc") } =
      none := by
  refine ⟨by with_unfolding_all decide, by with_unfolding_all decide,
    by with_unfolding_all decide⟩

/-- C7 (amended): `findAccountByEmailDomain` returns exactly the first
account whose non-empty `email_domain` equals the extracted domain
case-insensitively (the spec-side predicate `specDomainMatches`), with no
wildcard or subdomain matching; the extraction lowercases and yields
`"example.com"` for `"Alerts <alerts@Example.COM>"`; an account with
domain `example.com` matches `no-reply@example.com` and does not match
`attacker@notexample.com`. The extraction is the regex
`@([a-zA-Z0-9.-]+\.[a-zA-Z]{2,})`, which requires a dot followed by at
least two letters and stops after that letter run — not plainly "the
substring after `@` up to the first non-domain character" (see the
counterexample). -/
theorem c7_domain_matching (accounts : List Account) (senderEmail : String) :
    findAccountByEmailDomain accounts senderEmail =
      accounts.find? (fun account =>
        specDomainMatches account (extractEmailDomain senderEmail)) ∧
    extractEmailDomain "Alerts <alerts@Example.COM>" = "example.com" ∧
    findAccountByEmailDomain [c7Account] "no-reply@example.com" = some c7Account ∧
    findAccountByEmailDomain [c7Account] "attacker@notexample.com" = none := by
  refine ⟨?_, by decide, by with_unfolding_all decide, by with_unfolding_all decide⟩
  unfold findAccountByEmailDomain
  by_cases hdom : (extractEmailDomain senderEmail == "") = true
  · rw [if_pos hdom]
    have hempty : extractEmailDomain senderEmail = "" := beq_iff_eq.1 hdom
    symm
    rw [List.find?_eq_none]
    intro a _
    simp [specDomainMatches, hempty]
  · rw [if_neg hdom]
    have hfun : (fun account =>
        match account.email_domain with
        | none => false
        | some d =>
          if d == "" then false
          else d.toLower == (extractEmailDomain senderEmail).toLower) =
      (fun account => specDomainMatches account (extractEmailDomain senderEmail)) := by
      funext a
      simp only [specDomainMatches]
      have hne : (extractEmailDomain senderEmail != "") = true := by simpa using hdom
      rw [hne]
      rcases a.email_domain with _ | d
      · rfl
      · by_cases hd : d = ""
        · subst hd
          simp
        · have h1 : (d == "") = false := by simpa using hd
          have h2 : (d != "") = true := by simpa using hd
          simp [h1, h2]
    rw [hfun]

/-- Counterexample to C7 as stated: in `"user@ab.c"` every character after
the `@` is a domain character, so "the substring after `@` up to the first
non-domain character" would be `"ab.c"`; the regex requires at least two
letters after the final dot, so `extractEmailDomain` returns `""`. -/
theorem c7_counterexample :
    extractEmailDomain "user@ab.c" = "" ∧
    ¬ extractEmailDomain "user@ab.c" = "ab.c" ∧
    ("ab.c".toList.all isDomainChar) = true := by
  refine ⟨by decide, by decide, by decide⟩


/-- Round-trip of one hex digit: `hexCharVal` inverts `hexDigitChar` on
values below 16. -/
theorem hexCharVal_hexDigitChar : ∀ n < 16, hexCharVal (hexDigitChar n) = some n := by
  decide

theorem percentEscapeBytes_cons (b : ℕ) (rest : List ℕ) :
    percentEscapeBytes (b :: rest) =
      '%' :: hexDigitChar (b / 16 % 16) :: hexDigitChar (b % 16) :: percentEscapeBytes rest := by
  simp [percentEscapeBytes]

theorem percentUnescape_percentEscape :
    ∀ (bytes : List ℕ), (∀ b ∈ bytes, b < 256) →
      percentUnescape (percentEscapeBytes bytes) = some bytes := by
  intro bytes
  induction bytes with
  | nil => intro _; rfl
  | cons b rest ih =>
    intro h
    have hb : b < 256 := h b (List.mem_cons_self b rest)
    have hrest : ∀ x ∈ rest, x < 256 := fun x hx => h x (List.mem_cons_of_mem _ hx)
    have h1 : hexCharVal (hexDigitChar (b / 16 % 16)) = some (b / 16 % 16) :=
      hexCharVal_hexDigitChar _ (Nat.mod_lt _ (by norm_num))
    have h2 : hexCharVal (hexDigitChar (b % 16)) = some (b % 16) :=
      hexCharVal_hexDigitChar _ (Nat.mod_lt _ (by norm_num))
    have hbe : b / 16 % 16 * 16 + b % 16 = b := by omega
    rw [percentEscapeBytes_cons]
    simp only [percentUnescape, h1, h2, ih hrest, Option.bind_some, Option.some_bind]
    simp [hbe]

theorem base64CharVal_lt {c : Char} {n : ℕ} (h : base64CharVal c = some n) : n < 64 := by
  simp only [base64CharVal] at h
  split_ifs at h <;>
    first
      | exact Option.noConfusion h
      | (injection h with h; omega)

theorem mapM_base64CharVal_lt :
    ∀ (cs : List Char) (ns : List ℕ), cs.mapM base64CharVal = some ns → ∀ n ∈ ns, n < 64 := by
  intro cs
  induction cs with
  | nil =>
    intro ns h n hn
    simp only [List.mapM_nil, pure, Option.some.injEq] at h
    subst h
    cases hn
  | cons c cs ih =>
    intro ns h n hn
    rw [List.mapM_cons] at h
    cases hx : base64CharVal c with
    | none => rw [hx] at h; simp at h
    | some v =>
      rw [hx] at h
      cases hxs : cs.mapM base64CharVal with
      | none => rw [hxs] at h; simp at h
      | some vs =>
        rw [hxs] at h
        simp at h
        subst h
        rcases List.mem_cons.1 hn with hn | hn
        · subst hn; exact base64CharVal_lt hx
        · exact ih vs hxs n hn

theorem sextetsToBytes_lt :
    ∀ (ss : List ℕ) (bs : List ℕ), (∀ s ∈ ss, s < 64) → sextetsToBytes ss = some bs →
      ∀ b ∈ bs, b < 256 := by
  intro ss
  induction ss using sextetsToBytes.induct with
  | case1 =>
    intro bs _ h b hb
    simp only [sextetsToBytes, Option.some.injEq] at h
    subst h
    cases hb
  | case2 a =>
    intro bs _ h
    simp [sextetsToBytes] at h
  | case3 a b =>
    intro bs hs h x hx
    have ha : a < 64 := hs a (by simp)
    have hb : b < 64 := hs b (by simp)
    simp only [sextetsToBytes, Option.some.injEq] at h
    subst h
    simp only [List.mem_singleton] at hx
    omega
  | case4 a b c =>
    intro bs hs h x hx
    have ha : a < 64 := hs a (by simp)
    have hb : b < 64 := hs b (by simp)
    have hc : c < 64 := hs c (by simp)
    simp only [sextetsToBytes, Option.some.injEq] at h
    subst h
    simp only [List.mem_cons, List.not_mem_nil, or_false] at hx
    rcases hx with hx | hx <;> omega
  | case5 a b c d rest ih =>
    intro bs hs h x hx
    have ha : a < 64 := hs a (by simp)
    have hb : b < 64 := hs b (by simp)
    have hc : c < 64 := hs c (by simp)
    have hd : d < 64 := hs d (by simp)
    have hrest : ∀ s ∈ rest, s < 64 := fun s hsm => hs s (by simp [hsm])
    simp only [sextetsToBytes] at h
    cases htail : sextetsToBytes rest with
    | none => rw [htail] at h; simp at h
    | some tail =>
      rw [htail] at h
      simp only [Option.map_some', Option.some.injEq] at h
      subst h
      simp only [List.mem_cons] at hx
      rcases hx with hx | hx | hx | hx
      · omega
      · omega
      · omega
      · exact ih tail hrest htail x hx

theorem base64DecodeBytes_lt {s : String} {bs : List ℕ}
    (h : base64DecodeBytes s = some bs) : ∀ b ∈ bs, b < 256 := by
  simp only [base64DecodeBytes] at h
  split_ifs at h with hpad
  · cases hm : (s.toList.takeWhile fun c => c != '=').mapM base64CharVal with
    | none => rw [hm] at h; simp at h
    | some ss =>
      rw [hm] at h
      simp only [Option.some_bind] at h
      exact sextetsToBytes_lt ss bs (mapM_base64CharVal_lt _ ss hm) h

theorem decodeBase64Url_eq_direct (s : String) :
    decodeBase64Url s = decodeBase64UrlDirect s := by
  unfold decodeBase64Url decodeBase64UrlDirect
  cases hB : base64DecodeBytes (base64UrlToBase64 s) with
  | none => rfl
  | some bytes =>
    simp only [Option.some_bind]
    unfold decodeURIComponentEscapes
    rw [percentUnescape_percentEscape bytes (base64DecodeBytes_lt hB)]
    rfl

/-- C8 (amended): the byte-to-percent-escape pipeline is in fact
equivalent to decoding the base64 bytes directly as UTF-8 on every input,
multi-byte sequences included: each byte becomes exactly one two-digit
escape, `decodeURIComponent` reassembles the same byte run, and both
paths UTF-8-decode the identical bytes. Concretely, the base64url text
computed from the two-byte UTF-8 sequence for the character at code 233
decodes to that character on both paths. -/
theorem c8_decode_equivalence :
    (∀ s : String, decodeBase64Url s = decodeBase64UrlDirect s) ∧
    decodeBase64Url "w6k" = some "é" ∧
    decodeBase64UrlDirect "w6k" = some "é" :=
  ⟨fun s => decodeBase64Url_eq_direct s, by decide, by decide⟩

/-- Counterexample to C8 as stated: no base64url input makes
`decodeBase64Url` disagree with the direct UTF-8 decode — the claimed
mis-handling of multi-byte sequences never occurs. -/
theorem c8_counterexample :
    ¬ ∃ s : String, decodeBase64Url s ≠ decodeBase64UrlDirect s := by
  rintro ⟨s, hs⟩
  exact hs (decodeBase64Url_eq_direct s)

end MailBudget
